import Mathlib

/-! Todo router: a shallow embedding of `src/router/todos.router.js`

The module builds an Express router over one Mongoose collection of todo
documents.  The collection is embedded as a list of documents in natural
(insertion) order and every route handler as a function from the store before
the request to the store after it together with the reply.

Conventions of the embedding:

* `order` is a JavaScript Number with an integer value.  A stored or requested order
  is the integer a Number holds; the one sum the router computes, `order + 1`, is
  binary64 addition: the exact sum rounded to 53 significant bits, ties to even.
* `_id` is an opaque identifier chosen by the driver when a document is built;
  it is an input of the create handler.  The collection rejects an insert whose
  `_id` is already present.
* `new Date()` is an input of the handlers that read the clock.
* String length is the JavaScript `length`: the number of UTF-16 code units.
-/

namespace TodosRouter

/-! ## Data model -/

/-- Identifier of a document (`_id`). -/
abbrev TodoId := Nat

/-- The `doneAt` field of a document: not set, set to `null`, or a date (milliseconds). -/
inductive DoneAt
  | absent
  | null
  | date (ms : Nat)
  deriving DecidableEq, Repr

/-- Modelled from the spec: the `Todo` model of `src/schemas/todo.schema.js`, which is not
part of the sources at hand.  A document has an identifier, a text `value`, a numeric `order`
and an optional completion timestamp `doneAt`; saving a document checks nothing beyond
these types. -/
structure Todo where
  id : TodoId
  value : String
  order : Int
  doneAt : DoneAt
  deriving DecidableEq, Repr

/-- The collection, in natural order. -/
abbrev Store := List Todo

/-- JSON body of a reply. -/
inductive Payload
  | empty
  | todo (todo : Todo)
  | todos (todos : List Todo)
  | errorMessage (errorMessage : String)
  deriving DecidableEq, Repr

/-- Errors a handler can hit. -/
inductive RouteError
  | validation
  | duplicateKey
  deriving DecidableEq, Repr

/-- How a handler leaves the request: `res.status(status).json(payload)`, `next(error)`,
or `next()`. -/
inductive Reply
  | json (status : Nat) (payload : Payload)
  | nextError (error : RouteError)
  | next
  deriving DecidableEq, Repr

/-- Body of `POST /todos`; `value` is `none` when the key is missing. -/
structure CreateBody where
  value : Option String
  deriving DecidableEq, Repr

/-- Body of `PATCH /todos/:todoId`; a field is `none` when the key is missing.  The
field `order` is the integer that the Number read from the body holds. -/
structure PatchBody where
  order : Option Int
  done : Option Bool
  value : Option String
  deriving DecidableEq, Repr

/-! ## Strings -/

/-- JavaScript `length` of a string: UTF-16 code units. -/
def jsLength (s : String) : Nat :=
  (s.toList.map fun c => if c.toNat < 65536 then 1 else 2).sum

/-- White space and line terminators removed by JavaScript `trim`. -/
def isJsWhiteSpace (c : Char) : Bool :=
  let n := c.toNat
  n == 9 || n == 10 || n == 11 || n == 12 || n == 13 || n == 32 || n == 160 ||
  n == 5760 || (8192 ≤ n && n ≤ 8202) || n == 8232 || n == 8233 || n == 8239 ||
  n == 8287 || n == 12288 || n == 65279

/-- The value with surrounding white space removed, as the specification words it
("trimmed length").  The router never calls it. -/
def jsTrim (s : String) : String :=
  String.mk ((s.toList.dropWhile isJsWhiteSpace).reverse.dropWhile isJsWhiteSpace).reverse

/-! ## Numbers -/

/-- The spacing of binary64 values at the magnitude `m`: the least power of two `u` with
`m / u < 2 ^ 53`, found by doubling from `u`.  The first argument bounds the doublings;
binary64 has 971 of them, up to the spacing `2 ^ 971` of its greatest values. -/
def spacing : Nat → Nat → Nat → Nat
  | 0, _, u => u
  | k + 1, m, u => if m / u < 9007199254740992 then u else spacing k m (2 * u)

/-- The binary64 value nearest to the natural number `m`: `m` rounded to a multiple of the
spacing at its magnitude, a tie going to the even multiple.  Every `m` up to `2 ^ 53` is
its own value.  Magnitudes past the greatest finite Number are not part of the model. -/
def roundNat (m : Nat) : Nat :=
  let ulp := spacing 971 m 1
  let q := m / ulp
  let r := m % ulp
  if 2 * r < ulp then q * ulp
  else if ulp < 2 * r then (q + 1) * ulp
  else if q % 2 = 0 then q * ulp
  else (q + 1) * ulp

/-- The Number nearest to an integer. -/
def toNumber (n : Int) : Int :=
  if 0 ≤ n then (roundNat n.toNat : Int) else -(roundNat (-n).toNat : Int)

/-- JavaScript `a + b` on Numbers with integer values: the exact sum, rounded. -/
def numberAdd (a b : Int) : Int := toNumber (a + b)

/-! ## Collection primitives -/

/-- Query `Todo.findById(todoId)`: the document with that identifier. -/
def findById (s : Store) (todoId : TodoId) : Option Todo :=
  s.find? fun t => t.id == todoId

/-- Query `Todo.findOne({ order })`: the first document holding that order. -/
def findOneByOrder (s : Store) (order : Int) : Option Todo :=
  s.find? fun t => t.order == order

/-- The relation "comes no later than" of `sort("-order")`. -/
def orderDesc (a b : Todo) : Prop := b.order ≤ a.order

instance : DecidableRel orderDesc := fun a b => inferInstanceAs (Decidable (b.order ≤ a.order))

instance : IsTotal Todo orderDesc := ⟨fun a b => Int.le_total b.order a.order⟩

instance : IsTrans Todo orderDesc := ⟨fun _ _ _ hab hbc => Int.le_trans hbc hab⟩

/-- Query `Todo.find().sort("-order")`: all documents, highest order first. -/
def findSortDescOrder (s : Store) : List Todo :=
  s.insertionSort orderDesc

/-- Query `Todo.findOne().sort("-order")`: the first document of the descending sort. -/
def findOneSortDescOrder (s : Store) : Option Todo :=
  (findSortDescOrder s).head?

/-- Call `doc.save()` on a document read from the collection: the stored document with the
same `_id` is replaced. -/
def save : Store → Todo → Store
  | [], _ => []
  | t :: ts, doc => if t.id = doc.id then doc :: ts else t :: save ts doc

/-- Call `doc.save()` on a new document: appended, unless its `_id` is already present. -/
def insertNew (s : Store) (doc : Todo) : Except RouteError Store :=
  if s.any (fun t => t.id == doc.id) then .error .duplicateKey else .ok (s ++ [doc])

/-- Call `Todo.deleteOne({ _id: todoId })`: the first document with that identifier is removed. -/
def deleteOne (s : Store) (todoId : TodoId) : Store :=
  s.eraseP fun t => t.id == todoId

/-! ## Handlers -/

/-- Validation `createTodoSchema.validateAsync(req.body)` with
`value: Joi.string().min(1).max(50).required()`. -/
def createTodoSchema (body : CreateBody) : Except RouteError String :=
  match body.value with
  | none => .error .validation
  | some value =>
    if jsLength value < 1 then .error .validation
    else if 50 < jsLength value then .error .validation
    else .ok value

/-- Handler of `router.post("/todos")`. -/
def postTodos (s : Store) (newId : TodoId) (body : CreateBody) : Store × Reply :=
  match createTodoSchema body with
  | .error error => (s, .nextError error)
  | .ok value =>
    let order : Int :=
      match findOneSortDescOrder s with
      | some todoMaxOrder => numberAdd todoMaxOrder.order 1
      | none => 1
    let todo : Todo := { id := newId, value := value, order := order, doneAt := .absent }
    match insertNew s todo with
    | .error error => (s, .nextError error)
    | .ok s1 => (s1, .json 201 (.todo todo))

/-- Handler of `router.get("/todos")`. -/
def getTodos (s : Store) : Store × Reply :=
  (s, .json 200 (.todos (findSortDescOrder s)))

/-- The message of the 404 replies. -/
def notFoundMessage : String := "존재하지 않는 todo 데이터입니다."

/-- The block `if (order) { ... }`, textually the same in the three PATCH handlers: the
document holding the requested order, if any, takes the current order and is saved; the
in-memory target takes the requested order. -/
def reorderStep (s : Store) (currentTodo : Todo) (order : Option Int) : Store × Todo :=
  match order with
  | none => (s, currentTodo)
  | some order =>
    if order = 0 then (s, currentTodo)
    else
      let s1 :=
        match findOneByOrder s order with
        | some targetTodo => save s { targetTodo with order := currentTodo.order }
        | none => s
      (s1, { currentTodo with order := order })

/-- The block `if (done !== undefined) { currentTodo.doneAt = done ? new Date() : null }`. -/
def doneStep (now : Nat) (currentTodo : Todo) (done : Option Bool) : Todo :=
  match done with
  | none => currentTodo
  | some d => { currentTodo with doneAt := if d then .date now else .null }

/-- The block `if (value) { currentTodo.value = value }`. -/
def valueStep (currentTodo : Todo) (value : Option String) : Todo :=
  match value with
  | none => currentTodo
  | some v => if v = "" then currentTodo else { currentTodo with value := v }

/-- First handler registered with `router.patch("/todos/:todoId")` (lines 50-80). -/
def patchTodoFirst (s : Store) (todoId : TodoId) (body : PatchBody) : Store × Reply :=
  match findById s todoId with
  | none => (s, .json 404 (.errorMessage notFoundMessage))
  | some currentTodo =>
    let r := reorderStep s currentTodo body.order
    (save r.1 r.2, .json 200 .empty)

/-- Second handler registered with `router.patch("/todos/:todoId")` (lines 85-119). -/
def patchTodoSecond (now : Nat) (s : Store) (todoId : TodoId) (body : PatchBody) :
    Store × Reply :=
  match findById s todoId with
  | none => (s, .json 404 (.errorMessage notFoundMessage))
  | some currentTodo =>
    let r := reorderStep s currentTodo body.order
    (save r.1 (doneStep now r.2 body.done), .json 200 .empty)

/-- Third handler registered with `router.patch("/todos/:todoId")` (lines 145-183). -/
def patchTodoThird (now : Nat) (s : Store) (todoId : TodoId) (body : PatchBody) :
    Store × Reply :=
  match findById s todoId with
  | none => (s, .json 404 (.errorMessage notFoundMessage))
  | some currentTodo =>
    let r := reorderStep s currentTodo body.order
    (save r.1 (valueStep (doneStep now r.2 body.done) body.value), .json 200 .empty)

/-- Handler of `router.delete("/todos/:todoId")`. -/
def deleteTodo (s : Store) (todoId : TodoId) : Store × Reply :=
  match findById s todoId with
  | none => (s, .json 404 (.errorMessage notFoundMessage))
  | some _ => (deleteOne s todoId, .json 200 .empty)

/-! ## The router -/

/-- Express runs the handlers registered for a method and path in registration order: a
handler that replies, or calls `next(error)`, ends the walk; one that calls `next()` hands
the request to the handler registered after it. -/
def dispatch : List (Store → Store × Reply) → Store → Store × Reply
  | [], s => (s, .next)
  | h :: rest, s =>
    match h s with
    | (s1, .next) => dispatch rest s1
    | r => r

/-- Route `PATCH /todos/:todoId` as the router serves it: the three handlers in registration
order. -/
def routerPatch (now : Nat) (s : Store) (todoId : TodoId) (body : PatchBody) : Store × Reply :=
  dispatch [fun s => patchTodoFirst s todoId body,
            fun s => patchTodoSecond now s todoId body,
            fun s => patchTodoThird now s todoId body] s

/-- A request to the router, with the identifier or clock reading its handler draws. -/
inductive Request
  | post (newId : TodoId) (body : CreateBody)
  | get
  | patch (now : Nat) (todoId : TodoId) (body : PatchBody)
  | delete (todoId : TodoId)
  deriving DecidableEq, Repr

/-- The router on one request. -/
def handle (s : Store) : Request → Store × Reply
  | .post newId body => postTodos s newId body
  | .get => getTodos s
  | .patch now todoId body => routerPatch now s todoId body
  | .delete todoId => deleteTodo s todoId

/-- The router on a sequence of requests: the final store and the replies in sequence. -/
def serve (s : Store) : List Request → Store × List Reply
  | [] => (s, [])
  | rq :: rest => ((serve (handle s rq).1 rest).1, (handle s rq).2 :: (serve (handle s rq).1 rest).2)

/-- The store after a sequence of requests. -/
def run (s : Store) (requests : List Request) : Store :=
  (serve s requests).1

/-- A store some sequence of requests produces from the empty collection. -/
def Reachable (s : Store) : Prop := ∃ requests, run [] requests = s

/-! ## Predicates on stores -/

/-- No two documents share an `_id`. -/
def IdsDistinct (s : Store) : Prop := (s.map Todo.id).Nodup

/-- No two documents share an `order`. -/
def OrdersDistinct (s : Store) : Prop := (s.map Todo.order).Nodup

/-- Every stored value has between 1 and 50 code units. -/
def ValuesBounded (s : Store) : Prop := ∀ t ∈ s, 1 ≤ jsLength t.value ∧ jsLength t.value ≤ 50

/-- Every stored order is a safe integer: its magnitude is below `2 ^ 53`. -/
def OrdersSafe (s : Store) : Prop :=
  ∀ t ∈ s, -9007199254740992 < t.order ∧ t.order < 9007199254740992

/-- The order a request asks for, if it asks for one. -/
def requestedOrder : Request → Option Int
  | .patch _ _ body => body.order
  | _ => none

/-- Every order the requests ask for has magnitude at most `bound`. -/
def OrdersWithin (bound : Nat) (requests : List Request) : Prop :=
  ∀ rq ∈ requests, ∀ o, requestedOrder rq = some o → -(bound : Int) ≤ o ∧ o ≤ (bound : Int)

/-- The sequence of `2 ^ 53 + 1` creates with identifiers 0, 1, 2, ... and the value "a". -/
def manyCreates : List (TodoId × String) :=
  (List.range 9007199254740993).map fun i => (i, "a")

/-- The exchange of order values a reorder request makes: none when `order` is missing
or 0, otherwise the current order of the target and the requested order change places. -/
def orderSwap (current : Int) (order : Option Int) : Equiv.Perm Int :=
  match order with
  | none => Equiv.refl Int
  | some b => if b = 0 then Equiv.refl Int else Equiv.swap current b

/-- What an update on `todoId` that asks for `order` may do to the store `s`, stated on
its result `r`: the reply is 200; the sequence of identifiers is as before; every document
that is neither the target nor the document found holding a requested non-zero order is
as before; that holder differs from before in its order only, which is now the order the
target had; and when no document holds the requested order, every document but the
target is as before. -/
def UpdateFrame (s : Store) (todoId : TodoId) (order : Option Int) (r : Store × Reply) :
    Prop :=
  r.2 = .json 200 .empty ∧
  r.1.map Todo.id = s.map Todo.id ∧
  (∀ u ∈ s, u.id ≠ todoId →
    (∀ b p, order = some b → b ≠ 0 → findOneByOrder s b = some p → u.id ≠ p.id) →
    findById r.1 u.id = some u) ∧
  (∀ b p a, order = some b → b ≠ 0 → findOneByOrder s b = some p →
    findById s todoId = some a → p.id ≠ todoId →
    findById r.1 p.id = some { p with order := a.order }) ∧
  (∀ b, order = some b → findOneByOrder s b = none →
    ∀ u ∈ s, u.id ≠ todoId → findById r.1 u.id = some u)

instance (s : Store) : Decidable (IdsDistinct s) :=
  inferInstanceAs (Decidable (s.map Todo.id).Nodup)

instance (s : Store) : Decidable (OrdersDistinct s) :=
  inferInstanceAs (Decidable (s.map Todo.order).Nodup)

instance (s : Store) : Decidable (OrdersSafe s) :=
  inferInstanceAs
    (Decidable (∀ t ∈ s, -9007199254740992 < t.order ∧ t.order < 9007199254740992))

instance (s : Store) : Decidable (ValuesBounded s) :=
  inferInstanceAs (Decidable (∀ t ∈ s, 1 ≤ jsLength t.value ∧ jsLength t.value ≤ 50))

/-! ## Facts about the collection primitives -/

theorem roundNat_exact (m : Nat) (h : m ≤ 9007199254740992) : roundNat m = m := by
  rcases Nat.lt_or_eq_of_le h with h | h
  · have hs : spacing 971 m 1 = 1 := by
      show (if m / 1 < 9007199254740992 then 1 else spacing 970 m (2 * 1)) = 1
      rw [if_pos (by simpa using h)]
    unfold roundNat
    simp [hs, Nat.mod_one]
  · subst h
    decide

/-- On integers of magnitude up to `2 ^ 53` rounding changes nothing. -/
theorem toNumber_exact (n : Int) (h1 : -9007199254740992 ≤ n) (h2 : n ≤ 9007199254740992) :
    toNumber n = n := by
  unfold toNumber
  split
  · rw [roundNat_exact _ (by omega)]
    omega
  · rw [roundNat_exact _ (by omega)]
    omega

/-- Adding 1 to a safe integer is exact. -/
theorem numberAdd_one_safe (n : Int) (h1 : -9007199254740992 < n) (h2 : n < 9007199254740992) :
    numberAdd n 1 = n + 1 :=
  toNumber_exact (n + 1) (by omega) (by omega)

/-- At `2 ^ 53` adding 1 changes nothing: the sum is a tie and rounds back. -/
theorem numberAdd_one_at_limit : numberAdd 9007199254740992 1 = 9007199254740992 := by
  decide

/-- Adding 1 to a count capped at `2 ^ 53` gives the next count, capped. -/
theorem numberAdd_one_min (n : Nat) :
    numberAdd ((min n 9007199254740992 : Nat) : Int) 1
      = ((min (n + 1) 9007199254740992 : Nat) : Int) := by
  by_cases h : n < 9007199254740992
  · rw [Nat.min_eq_left (by omega), Nat.min_eq_left (by omega),
      numberAdd_one_safe _ (by omega) (by omega)]
    push_cast
    rfl
  · rw [Nat.min_eq_right (by omega), Nat.min_eq_right (by omega)]
    exact numberAdd_one_at_limit

theorem findOneSortDescOrder_nil : findOneSortDescOrder [] = none := rfl

theorem findOneSortDescOrder_isMax (s : Store) (h : s ≠ []) :
    ∃ m, findOneSortDescOrder s = some m ∧ m ∈ s ∧ ∀ t ∈ s, t.order ≤ m.order := by
  have hperm : List.Perm (findSortDescOrder s) s := List.perm_insertionSort orderDesc s
  have hsorted : List.Sorted orderDesc (findSortDescOrder s) :=
    List.sorted_insertionSort orderDesc s
  unfold findOneSortDescOrder
  cases hl : findSortDescOrder s with
  | nil =>
    rw [hl] at hperm
    exact absurd hperm.symm.eq_nil h
  | cons m rest =>
    rw [hl] at hperm hsorted
    refine ⟨m, rfl, hperm.subset (List.mem_cons_self m rest), ?_⟩
    intro t ht
    have ht2 : t ∈ m :: rest := hperm.symm.subset ht
    rcases List.mem_cons.mp ht2 with rfl | hmem
    · exact le_refl _
    · exact List.rel_of_sorted_cons hsorted t hmem

theorem insertNew_fresh (s : Store) (doc : Todo) (h : ∀ t ∈ s, t.id ≠ doc.id) :
    insertNew s doc = .ok (s ++ [doc]) := by
  unfold insertNew
  have : s.any (fun t => t.id == doc.id) = false := by
    rw [List.any_eq_false]
    intro t ht
    simpa using h t ht
  simp [this]

theorem createTodoSchema_ok (value : String) (hmin : 1 ≤ jsLength value)
    (hmax : jsLength value ≤ 50) : createTodoSchema ⟨some value⟩ = .ok value := by
  unfold createTodoSchema
  simp only
  rw [if_neg (by omega), if_neg (by omega)]

theorem findById_some {s : Store} {i : TodoId} {t : Todo} (h : findById s i = some t) :
    t ∈ s ∧ t.id = i := by
  unfold findById at h
  exact ⟨List.mem_of_find?_eq_some h, by simpa using List.find?_some h⟩

theorem findById_none {s : Store} {i : TodoId} (h : ∀ t ∈ s, t.id ≠ i) :
    findById s i = none := by
  unfold findById
  rw [List.find?_eq_none]
  intro t ht
  simpa using h t ht

theorem findById_of_mem {s : Store} (hids : IdsDistinct s) {t : Todo} (ht : t ∈ s) :
    findById s t.id = some t := by
  induction s with
  | nil => cases ht
  | cons u us ih =>
    unfold IdsDistinct at hids
    rw [List.map_cons, List.nodup_cons] at hids
    rcases List.mem_cons.mp ht with rfl | hmem
    · simp [findById]
    · have hne : u.id ≠ t.id := by
        intro heq
        exact hids.1 (heq ▸ List.mem_map_of_mem Todo.id hmem)
      have := ih hids.2 hmem
      unfold findById at this ⊢
      rw [List.find?_cons_of_neg _ (by simpa using hne)]
      exact this

theorem findOneByOrder_some {s : Store} {o : Int} {t : Todo} (h : findOneByOrder s o = some t) :
    t ∈ s ∧ t.order = o := by
  unfold findOneByOrder at h
  exact ⟨List.mem_of_find?_eq_some h, by simpa using List.find?_some h⟩

theorem findOneByOrder_none {s : Store} {o : Int} (h : findOneByOrder s o = none) :
    ∀ t ∈ s, t.order ≠ o := by
  unfold findOneByOrder at h
  rw [List.find?_eq_none] at h
  intro t ht
  simpa using h t ht

theorem eq_of_id_eq {s : Store} (hids : IdsDistinct s) {t u : Todo} (ht : t ∈ s) (hu : u ∈ s)
    (h : t.id = u.id) : t = u :=
  List.inj_on_of_nodup_map hids ht hu h

theorem eq_of_order_eq {s : Store} (hords : OrdersDistinct s) {t u : Todo} (ht : t ∈ s)
    (hu : u ∈ s) (h : t.order = u.order) : t = u :=
  List.inj_on_of_nodup_map hords ht hu h

theorem map_id_save (s : Store) (doc : Todo) : (save s doc).map Todo.id = s.map Todo.id := by
  induction s with
  | nil => rfl
  | cons t ts ih =>
    unfold save
    split
    · next h => simp [h]
    · simp [ih]

theorem mem_save {s : Store} {doc t : Todo} (h : t ∈ save s doc) : t = doc ∨ t ∈ s := by
  induction s with
  | nil => cases h
  | cons u us ih =>
    unfold save at h
    split at h
    · rcases List.mem_cons.mp h with rfl | hm
      · exact Or.inl rfl
      · exact Or.inr (List.mem_cons_of_mem _ hm)
    · rcases List.mem_cons.mp h with rfl | hm
      · exact Or.inr (List.mem_cons_self _ _)
      · rcases ih hm with rfl | hm2
        · exact Or.inl rfl
        · exact Or.inr (List.mem_cons_of_mem _ hm2)

theorem save_eq_map {s : Store} (hids : IdsDistinct s) (doc : Todo) :
    save s doc = s.map fun t => if t.id = doc.id then doc else t := by
  induction s with
  | nil => rfl
  | cons u us ih =>
    unfold IdsDistinct at hids
    rw [List.map_cons, List.nodup_cons] at hids
    unfold save
    by_cases h : u.id = doc.id
    · rw [if_pos h, List.map_cons, if_pos h]
      congr 1
      symm
      calc us.map (fun t => if t.id = doc.id then doc else t)
          = us.map id := by
            apply List.map_congr_left
            intro t ht
            have hne : t.id ≠ doc.id := by
              intro heq
              exact hids.1 (h ▸ heq ▸ List.mem_map_of_mem Todo.id ht)
            simp [hne]
        _ = us := List.map_id us
    · rw [if_neg h, List.map_cons, if_neg h, ih hids.2]

theorem save_save_eq_map {s : Store} (hids : IdsDistinct s) (b c : Todo) :
    save (save s b) c
      = s.map fun t => if t.id = c.id then c else if t.id = b.id then b else t := by
  have hids2 : IdsDistinct (save s b) := by
    unfold IdsDistinct
    rw [map_id_save]
    exact hids
  rw [save_eq_map hids2, save_eq_map hids, List.map_map]
  apply List.map_congr_left
  intro t _
  simp only [Function.comp]
  by_cases h1 : t.id = b.id
  · by_cases h2 : t.id = c.id
    · have h3 : b.id = c.id := h1 ▸ h2
      simp [h1, h2, h3]
    · have h3 : ¬ b.id = c.id := fun h => h2 (h1.trans h)
      simp [h1, h2, h3]
  · by_cases h2 : t.id = c.id
    · have h3 : ¬ c.id = b.id := h2 ▸ h1
      simp [h2, h3]
    · simp [h1, h2]

theorem findById_map (s : Store) (f : Todo → Todo) (hf : ∀ t, (f t).id = t.id) (i : TodoId) :
    findById (s.map f) i = (findById s i).map f := by
  unfold findById
  rw [List.find?_map]
  congr 1
  congr 1
  funext t
  simp [Function.comp, hf]

theorem findOneByOrder_of_mem {s : Store} (hords : OrdersDistinct s) {t : Todo} (ht : t ∈ s) :
    findOneByOrder s t.order = some t := by
  cases h : findOneByOrder s t.order with
  | none => exact absurd rfl (findOneByOrder_none h t ht)
  | some u =>
    obtain ⟨hu, huo⟩ := findOneByOrder_some h
    rw [eq_of_order_eq hords hu ht huo]

@[simp] theorem doneStep_id (now : Nat) (t : Todo) (done : Option Bool) :
    (doneStep now t done).id = t.id := by
  cases done <;> rfl

@[simp] theorem doneStep_order (now : Nat) (t : Todo) (done : Option Bool) :
    (doneStep now t done).order = t.order := by
  cases done <;> rfl

@[simp] theorem doneStep_value (now : Nat) (t : Todo) (done : Option Bool) :
    (doneStep now t done).value = t.value := by
  cases done <;> rfl

@[simp] theorem valueStep_id (t : Todo) (value : Option String) :
    (valueStep t value).id = t.id := by
  unfold valueStep
  split
  · rfl
  · split <;> rfl

@[simp] theorem valueStep_order (t : Todo) (value : Option String) :
    (valueStep t value).order = t.order := by
  unfold valueStep
  split
  · rfl
  · split <;> rfl

@[simp] theorem valueStep_doneAt (t : Todo) (value : Option String) :
    (valueStep t value).doneAt = t.doneAt := by
  unfold valueStep
  split
  · rfl
  · split <;> rfl

/-- The three shapes of the reorder block. -/
theorem reorderStep_cases (s : Store) (a : Todo) (order : Option Int) :
    ((order = none ∨ order = some 0) ∧ reorderStep s a order = (s, a)) ∨
    (∃ b, order = some b ∧ b ≠ 0 ∧ findOneByOrder s b = none ∧
      reorderStep s a order = (s, { a with order := b })) ∨
    (∃ b t, order = some b ∧ b ≠ 0 ∧ findOneByOrder s b = some t ∧
      reorderStep s a order = (save s { t with order := a.order }, { a with order := b })) := by
  cases order with
  | none => exact Or.inl ⟨Or.inl rfl, rfl⟩
  | some b =>
    by_cases hb : b = 0
    · subst hb
      exact Or.inl ⟨Or.inr rfl, rfl⟩
    · cases hf : findOneByOrder s b with
      | none =>
        refine Or.inr (Or.inl ⟨b, rfl, hb, hf, ?_⟩)
        simp [reorderStep, hb, hf]
      | some t =>
        refine Or.inr (Or.inr ⟨b, t, rfl, hb, hf, ?_⟩)
        simp [reorderStep, hb, hf]

theorem reorderStep_snd_id (s : Store) (a : Todo) (order : Option Int) :
    (reorderStep s a order).2.id = a.id := by
  rcases reorderStep_cases s a order with ⟨_, h⟩ | ⟨b, _, _, _, h⟩ | ⟨b, t, _, _, _, h⟩ <;>
    rw [h]

theorem reorderStep_snd_value (s : Store) (a : Todo) (order : Option Int) :
    (reorderStep s a order).2.value = a.value := by
  rcases reorderStep_cases s a order with ⟨_, h⟩ | ⟨b, _, _, _, h⟩ | ⟨b, t, _, _, _, h⟩ <;>
    rw [h]

theorem reorderStep_snd_doneAt (s : Store) (a : Todo) (order : Option Int) :
    (reorderStep s a order).2.doneAt = a.doneAt := by
  rcases reorderStep_cases s a order with ⟨_, h⟩ | ⟨b, _, _, _, h⟩ | ⟨b, t, _, _, _, h⟩ <;>
    rw [h]

/-- No PATCH handler calls `next`, so the router serves every PATCH request with the handler
registered first. -/
theorem routerPatch_eq_first (now : Nat) (s : Store) (todoId : TodoId) (body : PatchBody) :
    routerPatch now s todoId body = patchTodoFirst s todoId body := by
  cases h : findById s todoId <;> simp [routerPatch, dispatch, patchTodoFirst, h]

theorem patchTodoFirst_found {s : Store} {todoId : TodoId} {a : Todo}
    (h : findById s todoId = some a) (body : PatchBody) :
    patchTodoFirst s todoId body
      = (save (reorderStep s a body.order).1 (reorderStep s a body.order).2,
         .json 200 .empty) := by
  unfold patchTodoFirst
  rw [h]

theorem patchTodoSecond_found (now : Nat) {s : Store} {todoId : TodoId} {a : Todo}
    (h : findById s todoId = some a) (body : PatchBody) :
    patchTodoSecond now s todoId body
      = (save (reorderStep s a body.order).1
           (doneStep now (reorderStep s a body.order).2 body.done),
         .json 200 .empty) := by
  unfold patchTodoSecond
  rw [h]

theorem patchTodoThird_found (now : Nat) {s : Store} {todoId : TodoId} {a : Todo}
    (h : findById s todoId = some a) (body : PatchBody) :
    patchTodoThird now s todoId body
      = (save (reorderStep s a body.order).1
           (valueStep (doneStep now (reorderStep s a body.order).2 body.done) body.value),
         .json 200 .empty) := by
  unfold patchTodoThird
  rw [h]

/-- The store a PATCH handler leaves when the requested order is held by another document:
the target's saved copy `c` has the requested order, the holder has the target's old one. -/
theorem swap_core {s : Store} (hids : IdsDistinct s) (hords : OrdersDistinct s) {a b : Todo}
    (ha : a ∈ s) (hb : b ∈ s) (hne : b ≠ a) (hb0 : b.order ≠ 0) (c : Todo)
    (hcid : c.id = a.id) (hcord : c.order = b.order) :
    (findById (save (reorderStep s a (some b.order)).1 c) a.id).map Todo.order = some b.order ∧
    (findById (save (reorderStep s a (some b.order)).1 c) b.id).map Todo.order
      = some a.order := by
  have hstep : reorderStep s a (some b.order)
      = (save s { b with order := a.order }, { a with order := b.order }) := by
    simp [reorderStep, hb0, findOneByOrder_of_mem hords hb]
  have hidne : b.id ≠ a.id := fun h => hne (eq_of_id_eq hids hb ha h)
  rw [hstep]
  simp only
  rw [save_save_eq_map hids]
  have hf : ∀ t : Todo,
      (if t.id = c.id then c
        else if t.id = ({ b with order := a.order } : Todo).id then { b with order := a.order }
        else t).id = t.id := by
    intro t
    by_cases h1 : t.id = c.id
    · simp [h1]
    · by_cases h2 : t.id = b.id
      · have h3 : ¬ b.id = c.id := h2 ▸ h1
        simp [h2, h3]
      · simp [h1, h2]
  rw [findById_map s _ hf, findById_map s _ hf, findById_of_mem hids ha, findById_of_mem hids hb]
  constructor
  · simp [hcid, hcord]
  · have : ¬ b.id = c.id := by rw [hcid]; exact hidne
    simp [this]

theorem idsDistinct_save {s : Store} (hids : IdsDistinct s) (doc : Todo) :
    IdsDistinct (save s doc) := by
  unfold IdsDistinct
  rw [map_id_save]
  exact hids

theorem map_id_reorderStep (s : Store) (a : Todo) (order : Option Int) :
    (reorderStep s a order).1.map Todo.id = s.map Todo.id := by
  rcases reorderStep_cases s a order with ⟨_, h⟩ | ⟨b, _, _, _, h⟩ | ⟨b, t, _, _, _, h⟩ <;>
    rw [h]
  exact map_id_save s _

/-- Orders after a PATCH handler has saved the copy `c` of the stored target `a`: every
stored order has gone through the exchange `orderSwap`. -/
theorem map_order_patch_core {s : Store} (hids : IdsDistinct s) (hords : OrdersDistinct s)
    {a : Todo} (ha : a ∈ s) (order : Option Int) (c : Todo) (hcid : c.id = a.id)
    (hcord : c.order = (reorderStep s a order).2.order) :
    (save (reorderStep s a order).1 c).map Todo.order
      = (s.map Todo.order).map (orderSwap a.order order) := by
  rw [List.map_map]
  rcases reorderStep_cases s a order with ⟨ho, h⟩ | ⟨b, ho, hb, hf, h⟩ | ⟨b, t, ho, hb, hf, h⟩
  · rw [h] at hcord ⊢
    have hsw : orderSwap a.order order = Equiv.refl Int := by
      rcases ho with rfl | rfl <;> simp [orderSwap]
    rw [hsw, save_eq_map hids, List.map_map]
    apply List.map_congr_left
    intro u hu
    by_cases h1 : u.id = c.id
    · have : u = a := eq_of_id_eq hids hu ha (h1.trans hcid)
      subst this
      simpa [h1] using hcord
    · simp [h1]
  · rw [h] at hcord ⊢
    have hsw : orderSwap a.order order = Equiv.swap a.order b := by
      subst ho
      simp [orderSwap, hb]
    rw [hsw, save_eq_map hids, List.map_map]
    apply List.map_congr_left
    intro u hu
    by_cases h1 : u.id = c.id
    · have : u = a := eq_of_id_eq hids hu ha (h1.trans hcid)
      subst this
      simpa [h1] using hcord
    · have hua : u.order ≠ a.order := fun he =>
        h1 ((congrArg Todo.id (eq_of_order_eq hords hu ha he)).trans hcid.symm)
      have hub : u.order ≠ b := findOneByOrder_none hf u hu
      simp [h1, Equiv.swap_apply_of_ne_of_ne hua hub]
  · rw [h] at hcord ⊢
    obtain ⟨ht, hto⟩ := findOneByOrder_some hf
    have hsw : orderSwap a.order order = Equiv.swap a.order b := by
      subst ho
      simp [orderSwap, hb]
    rw [hsw, save_save_eq_map hids, List.map_map]
    apply List.map_congr_left
    intro u hu
    by_cases h1 : u.id = c.id
    · have : u = a := eq_of_id_eq hids hu ha (h1.trans hcid)
      subst this
      simpa [h1] using hcord
    · have hua : u.order ≠ a.order := fun he =>
        h1 ((congrArg Todo.id (eq_of_order_eq hords hu ha he)).trans hcid.symm)
      by_cases h2 : u.id = t.id
      · have : u = t := eq_of_id_eq hids hu ht h2
        subst this
        simp [h1, hto]
      · have hub : u.order ≠ b := fun he =>
          h2 (congrArg Todo.id (eq_of_order_eq hords hu ht (he.trans hto.symm)))
        simp [h1, h2, Equiv.swap_apply_of_ne_of_ne hua hub]

theorem ordersDistinct_patch_core {s : Store} (hids : IdsDistinct s) (hords : OrdersDistinct s)
    {a : Todo} (ha : a ∈ s) (order : Option Int) (c : Todo) (hcid : c.id = a.id)
    (hcord : c.order = (reorderStep s a order).2.order) :
    OrdersDistinct (save (reorderStep s a order).1 c) := by
  unfold OrdersDistinct
  rw [map_order_patch_core hids hords ha order c hcid hcord]
  exact List.Nodup.map (Equiv.injective _) hords

theorem idsDistinct_patch_core {s : Store} (hids : IdsDistinct s) (a : Todo)
    (order : Option Int) (c : Todo) :
    IdsDistinct (save (reorderStep s a order).1 c) := by
  unfold IdsDistinct
  rw [map_id_save, map_id_reorderStep]
  exact hids

/-- What `POST /todos` does to the store: nothing, or one document appended whose
identifier is new, whose value passed the schema and whose order is 1 on the empty store
and otherwise the greatest stored order plus 1, as Numbers add. -/
theorem postTodos_store (s : Store) (newId : TodoId) (body : CreateBody) :
    (postTodos s newId body).1 = s ∨
    ∃ v o, (postTodos s newId body).1 = s ++ [⟨newId, v, o, .absent⟩] ∧
      ((s = [] → o = 1) ∧
        (s ≠ [] → ∃ m ∈ s, (∀ t ∈ s, t.order ≤ m.order) ∧ o = numberAdd m.order 1)) ∧
      (∀ t ∈ s, t.id ≠ newId) ∧
      1 ≤ jsLength v ∧ jsLength v ≤ 50 := by
  unfold postTodos
  cases hv : createTodoSchema body with
  | error e => exact Or.inl rfl
  | ok v =>
    have hlen : 1 ≤ jsLength v ∧ jsLength v ≤ 50 := by
      unfold createTodoSchema at hv
      split at hv
      · cases hv
      · split at hv
        · cases hv
        · split at hv
          · cases hv
          · cases hv
            omega
    simp only
    generalize ho : (match findOneSortDescOrder s with
      | some todoMaxOrder => numberAdd todoMaxOrder.order 1
      | none => 1 : Int) = o
    have hord : (s = [] → o = 1) ∧
        (s ≠ [] → ∃ m ∈ s, (∀ t ∈ s, t.order ≤ m.order) ∧ o = numberAdd m.order 1) := by
      constructor
      · intro hs
        subst hs
        rw [findOneSortDescOrder_nil] at ho
        exact ho.symm
      · intro hs
        obtain ⟨m, hm, hmem, hmax⟩ := findOneSortDescOrder_isMax s hs
        rw [hm] at ho
        exact ⟨m, hmem, hmax, ho.symm⟩
    by_cases hany : s.any (fun t => t.id == newId) = true
    · left
      simp [insertNew, hany]
    · right
      refine ⟨v, o, ?_, hord, ?_, hlen⟩
      · simp [insertNew, hany]
      · intro t ht heq
        apply hany
        rw [List.any_eq_true]
        exact ⟨t, ht, by simpa using heq⟩

/-- In a store of safe integers the order a create assigns exceeds every stored order. -/
theorem created_order_gt {s : Store} (hsafe : OrdersSafe s) {o : Int}
    (hord : s ≠ [] → ∃ m ∈ s, (∀ t ∈ s, t.order ≤ m.order) ∧ o = numberAdd m.order 1) :
    ∀ t ∈ s, t.order < o := by
  intro t ht
  obtain ⟨m, hm, hmax, ho⟩ := hord (List.ne_nil_of_mem ht)
  rw [numberAdd_one_safe _ (hsafe m hm).1 (hsafe m hm).2] at ho
  have := hmax t ht
  omega

theorem deleteTodo_sublist (s : Store) (todoId : TodoId) :
    List.Sublist (deleteTodo s todoId).1 s := by
  unfold deleteTodo
  cases findById s todoId with
  | none => exact List.Sublist.refl s
  | some _ => exact List.eraseP_sublist s

theorem idsDistinct_handle {s : Store} (hids : IdsDistinct s) (rq : Request) :
    IdsDistinct (handle s rq).1 := by
  cases rq with
  | post newId body =>
    rcases postTodos_store s newId body with h | ⟨v, o, h, _, hfresh, _⟩
    · simp only [handle, h]
      exact hids
    · simp only [handle, h]
      unfold IdsDistinct at hids ⊢
      rw [List.map_append, List.nodup_append]
      refine ⟨hids, List.nodup_singleton _, ?_⟩
      intro i hi hi2
      rw [List.map_singleton, List.mem_singleton] at hi2
      obtain ⟨t, ht, rfl⟩ := List.mem_map.mp hi
      exact hfresh t ht hi2
  | get => exact hids
  | patch now todoId body =>
    simp only [handle, routerPatch_eq_first]
    cases hf : findById s todoId with
    | none => simpa [patchTodoFirst, hf] using hids
    | some a =>
      rw [patchTodoFirst_found hf]
      exact idsDistinct_patch_core hids a _ _
  | delete todoId =>
    exact List.Nodup.sublist ((deleteTodo_sublist s todoId).map Todo.id) hids

theorem reachable_idsDistinct {s : Store} (h : Reachable s) : IdsDistinct s := by
  obtain ⟨requests, rfl⟩ := h
  have key : ∀ (rqs : List Request) (st : Store), IdsDistinct st → IdsDistinct (run st rqs) := by
    intro rqs
    induction rqs with
    | nil => intro st hst; exact hst
    | cons rq rest ih =>
      intro st hst
      exact ih _ (idsDistinct_handle hst rq)
  exact key requests [] List.nodup_nil

theorem ordersDistinct_postTodos {s : Store} (hords : OrdersDistinct s)
    (hsafe : OrdersSafe s) (newId : TodoId) (body : CreateBody) :
    OrdersDistinct (postTodos s newId body).1 := by
  rcases postTodos_store s newId body with h | ⟨v, o, h, hord, _, _⟩
  · rw [h]
    exact hords
  · have hgt := created_order_gt hsafe hord.2
    rw [h]
    unfold OrdersDistinct at hords ⊢
    rw [List.map_append, List.nodup_append]
    refine ⟨hords, List.nodup_singleton _, ?_⟩
    intro i hi hi2
    rw [List.map_singleton, List.mem_singleton] at hi2
    obtain ⟨t, ht, rfl⟩ := List.mem_map.mp hi
    have := hgt t ht
    simp only at hi2
    omega

theorem ordersDistinct_patchTodoFirst {s : Store} (hids : IdsDistinct s)
    (hords : OrdersDistinct s) (todoId : TodoId) (body : PatchBody) :
    OrdersDistinct (patchTodoFirst s todoId body).1 := by
  cases hf : findById s todoId with
  | none => simpa [patchTodoFirst, hf] using hords
  | some a =>
    rw [patchTodoFirst_found hf]
    exact ordersDistinct_patch_core hids hords (findById_some hf).1 _ _
      (reorderStep_snd_id _ _ _) rfl

theorem ordersDistinct_patchTodoSecond (now : Nat) {s : Store} (hids : IdsDistinct s)
    (hords : OrdersDistinct s) (todoId : TodoId) (body : PatchBody) :
    OrdersDistinct (patchTodoSecond now s todoId body).1 := by
  cases hf : findById s todoId with
  | none => simpa [patchTodoSecond, hf] using hords
  | some a =>
    rw [patchTodoSecond_found now hf]
    exact ordersDistinct_patch_core hids hords (findById_some hf).1 _ _
      (by simp [reorderStep_snd_id]) (by simp)

theorem ordersDistinct_patchTodoThird (now : Nat) {s : Store} (hids : IdsDistinct s)
    (hords : OrdersDistinct s) (todoId : TodoId) (body : PatchBody) :
    OrdersDistinct (patchTodoThird now s todoId body).1 := by
  cases hf : findById s todoId with
  | none => simpa [patchTodoThird, hf] using hords
  | some a =>
    rw [patchTodoThird_found now hf]
    exact ordersDistinct_patch_core hids hords (findById_some hf).1 _ _
      (by simp [reorderStep_snd_id]) (by simp)

theorem ordersDistinct_deleteTodo {s : Store} (hords : OrdersDistinct s) (todoId : TodoId) :
    OrdersDistinct (deleteTodo s todoId).1 :=
  List.Nodup.sublist ((deleteTodo_sublist s todoId).map Todo.order) hords

theorem ordersDistinct_handle {s : Store} (hids : IdsDistinct s) (hords : OrdersDistinct s)
    (hsafe : OrdersSafe s) (rq : Request) : OrdersDistinct (handle s rq).1 := by
  cases rq with
  | post newId body => exact ordersDistinct_postTodos hords hsafe newId body
  | get => exact hords
  | patch now todoId body =>
    simp only [handle, routerPatch_eq_first]
    exact ordersDistinct_patchTodoFirst hids hords todoId body
  | delete todoId => exact ordersDistinct_deleteTodo hords todoId

theorem run_invariant (P : Store → Prop)
    (hstep : ∀ st rq, IdsDistinct st → P st → P (handle st rq).1) :
    ∀ (rqs : List Request) (st : Store), IdsDistinct st → P st → P (run st rqs) := by
  intro rqs
  induction rqs with
  | nil => intro st _ hst; exact hst
  | cons rq rest ih =>
    intro st hids hst
    exact ih _ (idsDistinct_handle hids rq) (hstep st rq hids hst)

theorem postTodos_valid (s : Store) (newId : TodoId) (value : String)
    (hfresh : ∀ t ∈ s, t.id ≠ newId) (hmin : 1 ≤ jsLength value)
    (hmax : jsLength value ≤ 50) :
    ∃ order : Int,
      postTodos s newId ⟨some value⟩
        = (s ++ [⟨newId, value, order, .absent⟩],
           .json 201 (.todo ⟨newId, value, order, .absent⟩)) ∧
      (s = [] → order = 1) ∧
      (s ≠ [] → ∃ m ∈ s, (∀ t ∈ s, t.order ≤ m.order) ∧ order = numberAdd m.order 1) := by
  unfold postTodos
  rw [createTodoSchema_ok value hmin hmax]
  by_cases hs : s = []
  · subst hs
    refine ⟨1, ?_, fun _ => rfl, fun h => absurd rfl h⟩
    simp [findOneSortDescOrder_nil, insertNew]
  · obtain ⟨m, hm, hmem, hmax2⟩ := findOneSortDescOrder_isMax s hs
    refine ⟨numberAdd m.order 1, ?_, fun h => absurd h hs, fun _ => ⟨m, hmem, hmax2, rfl⟩⟩
    simp only [hm]
    rw [insertNew_fresh s _ hfresh]

/-- A valid create into a store of safe integers: the order is the greatest stored order
plus 1, exactly. -/
theorem postTodos_valid_safe (s : Store) (newId : TodoId) (value : String)
    (hfresh : ∀ t ∈ s, t.id ≠ newId) (hmin : 1 ≤ jsLength value)
    (hmax : jsLength value ≤ 50) (hsafe : OrdersSafe s) :
    ∃ order : Int,
      postTodos s newId ⟨some value⟩
        = (s ++ [⟨newId, value, order, .absent⟩],
           .json 201 (.todo ⟨newId, value, order, .absent⟩)) ∧
      (s = [] → order = 1) ∧
      (s ≠ [] → (∃ m ∈ s, order = m.order + 1) ∧ ∀ t ∈ s, t.order + 1 ≤ order) := by
  obtain ⟨o, ho, ho1, ho2⟩ := postTodos_valid s newId value hfresh hmin hmax
  refine ⟨o, ho, ho1, fun hs => ?_⟩
  obtain ⟨m, hm, hmax2, hom⟩ := ho2 hs
  rw [numberAdd_one_safe _ (hsafe m hm).1 (hsafe m hm).2] at hom
  refine ⟨⟨m, hm, hom⟩, ?_⟩
  intro t ht
  have := hmax2 t ht
  omega

theorem serve_cons (s : Store) (rq : Request) (rest : List Request) :
    serve s (rq :: rest)
      = ((serve (handle s rq).1 rest).1, (handle s rq).2 :: (serve (handle s rq).1 rest).2) :=
  rfl

/-- Creates into a store whose greatest order is the count `n` capped at `2 ^ 53` (with
`n = 0` for the empty store): the new documents are appended in sequence, the one after
count `k` with order `k + 1` capped at `2 ^ 53`, and each is returned with status 201. -/
theorem serve_creates (creates : List (TodoId × String)) :
    ∀ (s : Store) (n : Nat),
      (∀ t ∈ s, t.order ≤ ((min n 9007199254740992 : Nat) : Int)) → (s = [] → n = 0) →
      (s ≠ [] → ∃ t ∈ s, t.order = ((min n 9007199254740992 : Nat) : Int)) →
      (s.map Todo.id ++ creates.map Prod.fst).Nodup →
      (∀ p ∈ creates, 1 ≤ jsLength p.2 ∧ jsLength p.2 ≤ 50) →
      serve s (creates.map fun p => Request.post p.1 ⟨some p.2⟩)
        = (s ++ (creates.enumFrom n).map
                  (fun kp => (⟨kp.2.1, kp.2.2,
                    ((min (kp.1 + 1) 9007199254740992 : Nat) : Int), .absent⟩ : Todo)),
           ((creates.enumFrom n).map
                  (fun kp => (⟨kp.2.1, kp.2.2,
                    ((min (kp.1 + 1) 9007199254740992 : Nat) : Int), .absent⟩ : Todo))).map
             fun t => Reply.json 201 (.todo t)) := by
  induction creates with
  | nil => intro s n _ _ _ _ _; simp [serve]
  | cons p rest ih =>
    intro s n hle hnil hmax hnodup hvals
    have hfresh : ∀ t ∈ s, t.id ≠ p.1 := by
      intro t ht heq
      rw [List.nodup_append] at hnodup
      exact hnodup.2.2 (List.mem_map_of_mem Todo.id ht) (by simp [heq])
    obtain ⟨o, hpost, ho1, ho2⟩ := postTodos_valid s p.1 p.2 hfresh
      (hvals p (List.mem_cons_self _ _)).1 (hvals p (List.mem_cons_self _ _)).2
    have ho : o = ((min (n + 1) 9007199254740992 : Nat) : Int) := by
      by_cases hs : s = []
      · rw [ho1 hs, hnil hs]
        rfl
      · obtain ⟨m, hm, hmmax, hom⟩ := ho2 hs
        obtain ⟨t, ht, htn⟩ := hmax hs
        have hmo : m.order = ((min n 9007199254740992 : Nat) : Int) :=
          le_antisymm (hle m hm) (htn ▸ hmmax t ht)
        rw [hom, hmo]
        exact numberAdd_one_min n
    subst ho
    have hnodup2 :
        ((s ++ [(⟨p.1, p.2, ((min (n + 1) 9007199254740992 : Nat) : Int), .absent⟩ : Todo)]).map
            Todo.id ++ rest.map Prod.fst).Nodup := by
      simpa [List.map_append, List.append_assoc] using hnodup
    have hrec := ih
      (s ++ [(⟨p.1, p.2, ((min (n + 1) 9007199254740992 : Nat) : Int), .absent⟩ : Todo)])
      (n + 1)
      (by
        intro t ht
        rcases List.mem_append.mp ht with h | h
        · have := hle t h
          have hmono : min n 9007199254740992 ≤ min (n + 1) 9007199254740992 := by omega
          have hcast : ((min n 9007199254740992 : Nat) : Int)
              ≤ ((min (n + 1) 9007199254740992 : Nat) : Int) := Int.ofNat_le.mpr hmono
          exact le_trans this hcast
        · rw [List.mem_singleton] at h
          subst h
          exact le_refl _)
      (by intro h; simp at h)
      (by
        intro _
        exact ⟨_, List.mem_append_right _ (List.mem_singleton_self _), rfl⟩)
      hnodup2
      (fun q hq => hvals q (List.mem_cons_of_mem _ hq))
    rw [List.map_cons, serve_cons]
    simp only [handle]
    rw [hpost]
    simp only
    rw [hrec]
    simp [List.enumFrom_cons, List.append_assoc]

/-- Orders after creates from the empty store, whatever their number: the k-th is `k`,
capped at `2 ^ 53`. -/
theorem run_creates_orders (creates : List (TodoId × String))
    (hids : (creates.map Prod.fst).Nodup)
    (hvals : ∀ p ∈ creates, 1 ≤ jsLength p.2 ∧ jsLength p.2 ≤ 50) :
    (run [] (creates.map fun p => Request.post p.1 ⟨some p.2⟩)).map Todo.order
      = (List.range creates.length).map
          fun (k : Nat) => ((min (k + 1) 9007199254740992 : Nat) : Int) := by
  have h := serve_creates creates [] 0 (by intro t ht; cases ht) (fun _ => rfl)
    (fun h => absurd rfl h) (by simpa using hids) hvals
  rw [List.nil_append] at h
  unfold run
  rw [h]
  simp only [List.map_map]
  rw [← List.enum_map_fst creates, List.map_map]
  rfl

theorem manyCreates_fst : manyCreates.map Prod.fst = List.range 9007199254740993 := by
  unfold manyCreates
  rw [List.map_map]
  exact List.map_id _

theorem manyCreates_length : manyCreates.length = 9007199254740993 := by
  unfold manyCreates
  rw [List.length_map, List.length_range]

theorem manyCreates_valid : ∀ p ∈ manyCreates, 1 ≤ jsLength p.2 ∧ jsLength p.2 ≤ 50 := by
  intro p hp
  unfold manyCreates at hp
  obtain ⟨i, _, rfl⟩ := List.mem_map.mp hp
  show 1 ≤ jsLength "a" ∧ jsLength "a" ≤ 50
  decide

/-- A store whose orders stay within `bound` below and `bound + k` above. -/
theorem ordersSafe_of_bounds {s : Store} {bound k : Nat}
    (hb : ∀ t ∈ s, -(bound : Int) ≤ t.order ∧ t.order ≤ (bound : Int) + k)
    (hk : bound + k < 9007199254740992) : OrdersSafe s := by
  intro t ht
  have := hb t ht
  omega

/-- One request keeps the orders within the bounds, the upper one raised by 1, when the
order it asks for is within `bound` and the raised bound is still a safe integer. -/
theorem bounds_handle {s : Store} {bound k : Nat} (hids : IdsDistinct s)
    (hords : OrdersDistinct s)
    (hb : ∀ t ∈ s, -(bound : Int) ≤ t.order ∧ t.order ≤ (bound : Int) + k)
    (hk : bound + k + 1 < 9007199254740992) (rq : Request)
    (hrq : ∀ o, requestedOrder rq = some o → -(bound : Int) ≤ o ∧ o ≤ (bound : Int)) :
    ∀ t ∈ (handle s rq).1,
      -(bound : Int) ≤ t.order ∧ t.order ≤ (bound : Int) + ((k + 1 : Nat) : Int) := by
  have hweak : ∀ t ∈ s,
      -(bound : Int) ≤ t.order ∧ t.order ≤ (bound : Int) + ((k + 1 : Nat) : Int) := by
    intro t ht
    have := hb t ht
    push_cast
    omega
  cases rq with
  | post newId body =>
    simp only [handle]
    rcases postTodos_store s newId body with h | ⟨v, o, h, hord, _, _⟩
    · rw [h]
      exact hweak
    · rw [h]
      intro t ht
      rcases List.mem_append.mp ht with hm | hm
      · exact hweak t hm
      · rw [List.mem_singleton] at hm
        subst hm
        simp only
        by_cases hs : s = []
        · rw [hord.1 hs]
          push_cast
          omega
        · obtain ⟨m, hm, _, hom⟩ := hord.2 hs
          have hmb := hb m hm
          rw [numberAdd_one_safe _ (by omega) (by omega)] at hom
          rw [hom]
          push_cast
          omega
  | get => exact hweak
  | patch now todoId body =>
    simp only [handle, routerPatch_eq_first]
    cases hf : findById s todoId with
    | none =>
      have : patchTodoFirst s todoId body = (s, .json 404 (.errorMessage notFoundMessage)) := by
        simp [patchTodoFirst, hf]
      rw [this]
      exact hweak
    | some a =>
      rw [patchTodoFirst_found hf]
      have ha := (findById_some hf).1
      have hmap := map_order_patch_core hids hords ha body.order
        (reorderStep s a body.order).2 (reorderStep_snd_id _ _ _) rfl
      intro t ht
      have hmem : t.order ∈ (s.map Todo.order).map (orderSwap a.order body.order) := by
        rw [← hmap]
        exact List.mem_map_of_mem Todo.order ht
      obtain ⟨x, hx, hxt⟩ := List.mem_map.mp hmem
      obtain ⟨u, hu, rfl⟩ := List.mem_map.mp hx
      have hub := hweak u hu
      have hab := hweak a ha
      rw [← hxt]
      cases ho : body.order with
      | none => simpa [orderSwap] using hub
      | some b =>
        by_cases hb0 : b = 0
        · simpa [orderSwap, hb0] using hub
        · have hbb := hrq b (by simpa [requestedOrder] using ho)
          simp only [orderSwap, if_neg hb0, Equiv.swap_apply_def]
          split
          · push_cast
            omega
          · split
            · exact hab
            · exact hub
  | delete todoId =>
    intro t ht
    exact hweak t ((deleteTodo_sublist s todoId).subset ht)

/-- Served from a store with distinct identifiers and orders and with orders within the
bounds, requests that ask for orders within `bound` leave the orders distinct, as long as
`bound` plus the number of requests served stays a safe integer. -/
theorem ordersDistinct_run_within (bound : Nat) (rqs : List Request) :
    ∀ (s : Store) (k : Nat), IdsDistinct s → OrdersDistinct s →
      (∀ t ∈ s, -(bound : Int) ≤ t.order ∧ t.order ≤ (bound : Int) + k) →
      OrdersWithin bound rqs → bound + k + rqs.length < 9007199254740992 →
      OrdersDistinct (run s rqs) := by
  induction rqs with
  | nil => intro s k _ hords _ _ _; exact hords
  | cons rq rest ih =>
    intro s k hids hords hb hwithin hk
    rw [List.length_cons] at hk
    have hsafe : OrdersSafe s := ordersSafe_of_bounds hb (by omega)
    exact ih (handle s rq).1 (k + 1) (idsDistinct_handle hids rq)
      (ordersDistinct_handle hids hords hsafe rq)
      (bounds_handle hids hords hb (by omega) rq
        (hwithin rq (List.mem_cons_self _ _)))
      (fun r hr => hwithin r (List.mem_cons_of_mem _ hr))
      (by omega)

theorem createTodoSchema_invalid (body : CreateBody)
    (h : body.value = none ∨ ∃ v, body.value = some v ∧ (jsLength v = 0 ∨ 50 < jsLength v)) :
    createTodoSchema body = .error .validation := by
  unfold createTodoSchema
  rcases h with h | ⟨v, h, hv⟩
  · rw [h]
  · rw [h]
    simp only
    rcases hv with hv | hv
    · simp [hv]
    · simp [hv]

theorem postTodos_invalid (s : Store) (newId : TodoId) (body : CreateBody)
    (h : body.value = none ∨ ∃ v, body.value = some v ∧ (jsLength v = 0 ∨ 50 < jsLength v)) :
    postTodos s newId body = (s, .nextError .validation) := by
  unfold postTodos
  rw [createTodoSchema_invalid body h]

theorem findById_save_self {s : Store} {doc : Todo} (h : ∃ t ∈ s, t.id = doc.id) :
    findById (save s doc) doc.id = some doc := by
  induction s with
  | nil =>
    obtain ⟨t, ht, _⟩ := h
    cases ht
  | cons u us ih =>
    unfold save
    by_cases hu : u.id = doc.id
    · rw [if_pos hu]
      simp [findById]
    · rw [if_neg hu]
      obtain ⟨t, ht, hid⟩ := h
      have htus : t ∈ us := by
        rcases List.mem_cons.mp ht with rfl | hm
        · exact absurd hid hu
        · exact hm
      have := ih ⟨t, htus, hid⟩
      unfold findById at this ⊢
      rw [List.find?_cons_of_neg _ (by simpa using hu)]
      exact this

/-- After a PATCH handler has saved the copy `c` of the target, looking the target up
returns `c`. -/
theorem findById_patch_core {s : Store} {todoId : TodoId} {a : Todo}
    (hf : findById s todoId = some a) (order : Option Int) (c : Todo) (hcid : c.id = a.id) :
    findById (save (reorderStep s a order).1 c) todoId = some c := by
  obtain ⟨ha, haid⟩ := findById_some hf
  have hmem : c.id ∈ (reorderStep s a order).1.map Todo.id := by
    rw [map_id_reorderStep, hcid]
    exact List.mem_map_of_mem Todo.id ha
  obtain ⟨t, ht, htid⟩ := List.mem_map.mp hmem
  have := @findById_save_self (reorderStep s a order).1 c ⟨t, ht, htid⟩
  rw [hcid, haid] at this
  exact this

theorem mem_reorderStep_value {s : Store} (a : Todo) (order : Option Int)
    {t : Todo} (ht : t ∈ (reorderStep s a order).1) : ∃ u ∈ s, t.value = u.value := by
  rcases reorderStep_cases s a order with ⟨_, h⟩ | ⟨b, _, _, _, h⟩ | ⟨b, w, _, _, hf, h⟩
  · rw [h] at ht
    exact ⟨t, ht, rfl⟩
  · rw [h] at ht
    exact ⟨t, ht, rfl⟩
  · rw [h] at ht
    rcases mem_save ht with rfl | hm
    · exact ⟨w, (findOneByOrder_some hf).1, rfl⟩
    · exact ⟨t, hm, rfl⟩

theorem valuesBounded_patchTodoFirst {s : Store} (hv : ValuesBounded s) (todoId : TodoId)
    (body : PatchBody) : ValuesBounded (patchTodoFirst s todoId body).1 := by
  cases hf : findById s todoId with
  | none => simpa [patchTodoFirst, hf] using hv
  | some a =>
    rw [patchTodoFirst_found hf]
    have ha := (findById_some hf).1
    intro t ht
    rcases mem_save ht with rfl | hm
    · rw [reorderStep_snd_value]
      exact hv a ha
    · obtain ⟨u, hu, hval⟩ := mem_reorderStep_value a body.order hm
      rw [hval]
      exact hv u hu

theorem valuesBounded_patchTodoSecond (now : Nat) {s : Store} (hv : ValuesBounded s)
    (todoId : TodoId) (body : PatchBody) :
    ValuesBounded (patchTodoSecond now s todoId body).1 := by
  cases hf : findById s todoId with
  | none => simpa [patchTodoSecond, hf] using hv
  | some a =>
    rw [patchTodoSecond_found now hf]
    have ha := (findById_some hf).1
    intro t ht
    rcases mem_save ht with rfl | hm
    · rw [doneStep_value, reorderStep_snd_value]
      exact hv a ha
    · obtain ⟨u, hu, hval⟩ := mem_reorderStep_value a body.order hm
      rw [hval]
      exact hv u hu

theorem valuesBounded_postTodos {s : Store} (hv : ValuesBounded s) (newId : TodoId)
    (body : CreateBody) : ValuesBounded (postTodos s newId body).1 := by
  rcases postTodos_store s newId body with h | ⟨v, o, h, _, _, hmin, hmax⟩
  · rw [h]
    exact hv
  · rw [h]
    intro t ht
    rcases List.mem_append.mp ht with hm | hm
    · exact hv t hm
    · rw [List.mem_singleton] at hm
      subst hm
      exact ⟨hmin, hmax⟩

theorem valuesBounded_deleteTodo {s : Store} (hv : ValuesBounded s) (todoId : TodoId) :
    ValuesBounded (deleteTodo s todoId).1 :=
  fun t ht => hv t ((deleteTodo_sublist s todoId).subset ht)

theorem valuesBounded_handle {s : Store} (hv : ValuesBounded s) (rq : Request) :
    ValuesBounded (handle s rq).1 := by
  cases rq with
  | post newId body => exact valuesBounded_postTodos hv newId body
  | get => exact hv
  | patch now todoId body =>
    simp only [handle, routerPatch_eq_first]
    exact valuesBounded_patchTodoFirst hv todoId body
  | delete todoId => exact valuesBounded_deleteTodo hv todoId

theorem jsLength_empty : jsLength "" = 0 := by decide

/-- The router never changes `doneAt`: after any served PATCH the target carries the
`doneAt` it had. -/
theorem routerPatch_keeps_doneAt (now : Nat) {s : Store} {todoId : TodoId} {a : Todo}
    (hf : findById s todoId = some a) (body : PatchBody) :
    (findById (routerPatch now s todoId body).1 todoId).map Todo.doneAt = some a.doneAt := by
  rw [routerPatch_eq_first, patchTodoFirst_found hf]
  simp only
  rw [findById_patch_core hf body.order _ (reorderStep_snd_id _ _ _)]
  simp [reorderStep_snd_doneAt]

/-- The handler registered third, run alone, sets `doneAt` as requested. -/
theorem patchTodoThird_sets_doneAt (now : Nat) {s : Store} {todoId : TodoId} {a : Todo}
    (hf : findById s todoId = some a) (body : PatchBody) :
    (findById (patchTodoThird now s todoId body).1 todoId).map Todo.doneAt
      = some (match body.done with
              | some true => .date now
              | some false => .null
              | none => a.doneAt) := by
  rw [patchTodoThird_found now hf]
  simp only
  rw [findById_patch_core hf body.order _ (by simp [reorderStep_snd_id])]
  rcases hd : body.done with _ | _ | _ <;> simp [doneStep, reorderStep_snd_doneAt]

/-- The handler registered third, run alone, stores a value of any length. -/
theorem patchTodoThird_stores_unchecked_value :
    patchTodoThird 0 [⟨1, "a", 1, .absent⟩] 1 ⟨none, none, some (String.mk (List.replicate 51 'b'))⟩
      = ([⟨1, String.mk (List.replicate 51 'b'), 1, .absent⟩], .json 200 .empty) ∧
    jsLength (String.mk (List.replicate 51 'b')) = 51 := by
  decide

/-- The router never changes `value`: after any served PATCH the target carries the
value it had. -/
theorem routerPatch_keeps_value (now : Nat) {s : Store} {todoId : TodoId} {a : Todo}
    (hf : findById s todoId = some a) (body : PatchBody) :
    (findById (routerPatch now s todoId body).1 todoId).map Todo.value = some a.value := by
  rw [routerPatch_eq_first, patchTodoFirst_found hf]
  simp only
  rw [findById_patch_core hf body.order _ (reorderStep_snd_id _ _ _)]
  simp [reorderStep_snd_value]

/-- The handler registered third, run alone, replaces the value by a non-empty one. -/
theorem patchTodoThird_sets_value (now : Nat) {s : Store} {todoId : TodoId} {a : Todo}
    (hf : findById s todoId = some a) (body : PatchBody) :
    (findById (patchTodoThird now s todoId body).1 todoId).map Todo.value
      = some (match body.value with
              | some v => if v = "" then a.value else v
              | none => a.value) := by
  rw [patchTodoThird_found now hf]
  simp only
  rw [findById_patch_core hf body.order _ (by simp [reorderStep_snd_id])]
  rcases hv : body.value with _ | v
  · simp [valueStep, reorderStep_snd_value]
  · by_cases he : v = ""
    · simp [valueStep, he, reorderStep_snd_value]
    · simp [valueStep, he]

theorem deleteOne_eq_filter {s : Store} (hids : IdsDistinct s) (todoId : TodoId) :
    deleteOne s todoId = s.filter fun t => t.id != todoId := by
  induction s with
  | nil => rfl
  | cons u us ih =>
    unfold IdsDistinct at hids
    rw [List.map_cons, List.nodup_cons] at hids
    unfold deleteOne at ih ⊢
    by_cases hu : u.id = todoId
    · have hall : ∀ t ∈ us, (t.id != todoId) = true := by
        intro t ht
        have hne : t.id ≠ todoId := fun heq =>
          hids.1 (hu ▸ heq ▸ List.mem_map_of_mem Todo.id ht)
        simpa using hne
      rw [List.eraseP_cons_of_pos (by simpa using hu),
        List.filter_cons_of_neg (by simpa using hu), List.filter_eq_self.mpr hall]
    · rw [List.eraseP_cons_of_neg (by simpa using hu),
        List.filter_cons_of_pos (by simpa using hu), ih hids.2]

theorem deleteTodo_found {s : Store} {todoId : TodoId} {a : Todo}
    (hf : findById s todoId = some a) :
    deleteTodo s todoId = (deleteOne s todoId, .json 200 .empty) := by
  unfold deleteTodo
  rw [hf]

theorem deleteTodo_not_found {s : Store} {todoId : TodoId} (hf : findById s todoId = none) :
    deleteTodo s todoId = (s, .json 404 (.errorMessage notFoundMessage)) := by
  unfold deleteTodo
  rw [hf]

theorem length_deleteOne {s : Store} {todoId : TodoId} {a : Todo}
    (hf : findById s todoId = some a) : (deleteOne s todoId).length + 1 = s.length := by
  obtain ⟨ha, haid⟩ := findById_some hf
  unfold deleteOne
  rw [List.length_eraseP_of_mem ha (by simpa using haid)]
  have : 0 < s.length := List.length_pos_of_mem ha
  omega

/-- A document whose order exceeds every stored order comes first in the descending
sort of the store extended by it. -/
theorem findSortDescOrder_append_max (s : Store) (t : Todo) (h : ∀ u ∈ s, u.order < t.order) :
    ∃ rest, findSortDescOrder (s ++ [t]) = t :: rest := by
  obtain ⟨m, hm, hmem, hmax⟩ := findOneSortDescOrder_isMax (s ++ [t]) (by simp)
  have hmt : m = t := by
    rcases List.mem_append.mp hmem with hms | hmt
    · have h1 := h m hms
      have h2 := hmax t (List.mem_append_right _ (List.mem_singleton_self _))
      omega
    · exact List.mem_singleton.mp hmt
  subst hmt
  unfold findOneSortDescOrder at hm
  cases hl : findSortDescOrder (s ++ [m]) with
  | nil => rw [hl] at hm; cases hm
  | cons x rest =>
    rw [hl] at hm
    simp only [List.head?_cons, Option.some.injEq] at hm
    exact ⟨rest, by rw [hm]⟩

theorem reorderStep_noop (s : Store) (a : Todo) {order : Option Int}
    (ho : order = none ∨ order = some 0) : reorderStep s a order = (s, a) := by
  rcases ho with rfl | rfl <;> simp [reorderStep]

/-- Saving a copy of the looked-up document that carries its order leaves the sequence
of identifiers and orders as it was. -/
theorem map_id_order_save_found {s : Store} {todoId : TodoId} {a : Todo}
    (hf : findById s todoId = some a) (c : Todo) (hcid : c.id = a.id)
    (hcord : c.order = a.order) :
    (save s c).map (fun t => (t.id, t.order)) = s.map (fun t => (t.id, t.order)) := by
  induction s with
  | nil => rfl
  | cons u us ih =>
    have haid := (findById_some hf).2
    unfold save
    by_cases hu : u.id = todoId
    · have hua : a = u := by
        unfold findById at hf
        rw [List.find?_cons_of_pos _ (by simpa using hu)] at hf
        exact (Option.some.inj hf).symm
      subst hua
      rw [if_pos hcid.symm]
      simp [hcid, hcord]
    · have hf2 : findById us todoId = some a := by
        unfold findById at hf ⊢
        rw [List.find?_cons_of_neg _ (by simpa using hu)] at hf
        exact hf
      rw [if_neg (by rw [hcid, haid]; exact hu)]
      simp [ih hf2]

theorem map_id_order_patch_noreorder {s : Store} {todoId : TodoId} {a : Todo}
    (hf : findById s todoId = some a) {order : Option Int}
    (ho : order = none ∨ order = some 0) (c : Todo) (hcid : c.id = a.id)
    (hcord : c.order = (reorderStep s a order).2.order) :
    (save (reorderStep s a order).1 c).map (fun t => (t.id, t.order))
      = s.map (fun t => (t.id, t.order)) := by
  rw [reorderStep_noop s a ho] at hcord ⊢
  exact map_id_order_save_found hf c hcid hcord

theorem ite_id_one (c : Todo) (t : Todo) : (if t.id = c.id then c else t).id = t.id := by
  by_cases h : t.id = c.id
  · simp [h]
  · simp [h]

theorem ite_id_two (b c : Todo) (t : Todo) :
    (if t.id = c.id then c else if t.id = b.id then b else t).id = t.id := by
  by_cases h1 : t.id = c.id
  · simp [h1]
  · by_cases h2 : t.id = b.id
    · have h3 : ¬ b.id = c.id := h2 ▸ h1
      simp [h2, h3]
    · simp [h1, h2]

/-- A document that is neither the target nor the holder of the requested order is found
unchanged after a PATCH handler has saved the copy `c` of the target. -/
theorem findById_patch_untouched {s : Store} (hids : IdsDistinct s) {todoId : TodoId}
    {a : Todo} (hf : findById s todoId = some a) (order : Option Int) (c : Todo)
    (hcid : c.id = a.id) {u : Todo} (hu : u ∈ s) (hne : u.id ≠ todoId)
    (hnot : ∀ b p, order = some b → b ≠ 0 → findOneByOrder s b = some p → u.id ≠ p.id) :
    findById (save (reorderStep s a order).1 c) u.id = some u := by
  have haid := (findById_some hf).2
  have huc : ¬ u.id = c.id := by rw [hcid, haid]; exact hne
  rcases reorderStep_cases s a order with ⟨_, h⟩ | ⟨b, _, _, _, h⟩ | ⟨b, p, ho, hb, hp, h⟩
  · rw [h]
    simp only
    rw [save_eq_map hids, findById_map s _ (ite_id_one c), findById_of_mem hids hu]
    simp [huc]
  · rw [h]
    simp only
    rw [save_eq_map hids, findById_map s _ (ite_id_one c), findById_of_mem hids hu]
    simp [huc]
  · have hup : ¬ u.id = p.id := hnot b p ho hb hp
    rw [h]
    simp only
    rw [save_save_eq_map hids, findById_map s _ (ite_id_two _ c), findById_of_mem hids hu]
    simp [huc, hup]

/-- The holder of the requested order, when it is not the target, is found with the old
order of the target and otherwise unchanged. -/
theorem findById_patch_partner {s : Store} (hids : IdsDistinct s) {todoId : TodoId}
    {a : Todo} (hf : findById s todoId = some a) (c : Todo) (hcid : c.id = a.id)
    {b : Int} {p : Todo} (hb : b ≠ 0) (hp : findOneByOrder s b = some p)
    (hne : p.id ≠ todoId) :
    findById (save (reorderStep s a (some b)).1 c) p.id
      = some { p with order := a.order } := by
  have haid := (findById_some hf).2
  have hpc : ¬ p.id = c.id := by rw [hcid, haid]; exact hne
  have hstep : reorderStep s a (some b)
      = (save s { p with order := a.order }, { a with order := b }) := by
    simp [reorderStep, hb, hp]
  rw [hstep]
  simp only
  rw [save_save_eq_map hids, findById_map s _ (ite_id_two _ c),
    findById_of_mem hids (findOneByOrder_some hp).1]
  simp [hpc]

theorem updateFrame_core {s : Store} (hids : IdsDistinct s) {todoId : TodoId} {a : Todo}
    (hf : findById s todoId = some a) (order : Option Int) (c : Todo) (hcid : c.id = a.id) :
    UpdateFrame s todoId order (save (reorderStep s a order).1 c, .json 200 .empty) := by
  refine ⟨rfl, ?_, ?_, ?_, ?_⟩
  · simp only
    rw [map_id_save, map_id_reorderStep]
  · intro u hu hne hnot
    exact findById_patch_untouched hids hf order c hcid hu hne hnot
  · intro b p a2 ho hb hp hf2 hne
    have : a2 = a := Option.some.inj (hf2.symm.trans hf)
    subst this
    subst ho
    exact findById_patch_partner hids hf c hcid hb hp hne
  · intro b ho hnone u hu hne
    refine findById_patch_untouched hids hf order c hcid hu hne ?_
    intro b2 p ho2 _ hp
    have : b2 = b := Option.some.inj (ho2.symm.trans ho)
    subst this
    rw [hnone] at hp
    cases hp

theorem save_self {s : Store} (hids : IdsDistinct s) {a : Todo} (ha : a ∈ s) :
    save s a = s := by
  rw [save_eq_map hids]
  calc s.map (fun t => if t.id = a.id then a else t)
      = s.map id := by
        apply List.map_congr_left
        intro t ht
        by_cases h : t.id = a.id
        · simp [h, eq_of_id_eq hids ht ha h]
        · simp [h]
    _ = s := List.map_id s

theorem reorderStep_self {s : Store} (hids : IdsDistinct s) (hords : OrdersDistinct s)
    {a : Todo} (ha : a ∈ s) (ha0 : a.order ≠ 0) :
    reorderStep s a (some a.order) = (s, a) := by
  have hstep : reorderStep s a (some a.order)
      = (save s { a with order := a.order }, { a with order := a.order }) := by
    simp [reorderStep, ha0, findOneByOrder_of_mem hords ha]
  rw [hstep]
  have hself : ({ a with order := a.order } : Todo) = a := rfl
  rw [hself, save_self hids ha]

theorem reorderStep_snd_order {s : Store} (a : Todo) {b : Int} (hb : b ≠ 0) :
    (reorderStep s a (some b)).2.order = b := by
  simp [reorderStep, hb]

/-- Orders after a reorder of the target to `b` followed by a reorder of the target back
to its old order: the sequences of orders and of identifiers are as at the start. -/
theorem reorder_back_core {s : Store} (hids : IdsDistinct s) (hords : OrdersDistinct s)
    {todoId : TodoId} {a : Todo} (hf : findById s todoId = some a) (ha0 : a.order ≠ 0)
    {b : Int} (hb : b ≠ 0) (c1 : Todo) (hc1id : c1.id = a.id) (hc1ord : c1.order = b)
    (c2 : Todo) (hc2id : c2.id = a.id) (hc2ord : c2.order = a.order) :
    (save (reorderStep (save (reorderStep s a (some b)).1 c1) c1 (some a.order)).1 c2).map
        Todo.order = s.map Todo.order ∧
    (save (reorderStep (save (reorderStep s a (some b)).1 c1) c1 (some a.order)).1 c2).map
        Todo.id = s.map Todo.id := by
  have ha := (findById_some hf).1
  have hc1 : c1.order = (reorderStep s a (some b)).2.order := by
    rw [reorderStep_snd_order a hb, hc1ord]
  have hids1 := idsDistinct_patch_core hids a (some b) c1
  have hords1 := ordersDistinct_patch_core hids hords ha (some b) c1 hc1id hc1
  have hmem1 : c1 ∈ save (reorderStep s a (some b)).1 c1 :=
    (findById_some (findById_patch_core hf (some b) c1 hc1id)).1
  constructor
  · rw [map_order_patch_core hids1 hords1 hmem1 (some a.order) c2 (hc2id.trans hc1id.symm)
        (by rw [reorderStep_snd_order c1 ha0, hc2ord]),
      map_order_patch_core hids hords ha (some b) c1 hc1id hc1, List.map_map]
    calc (s.map Todo.order).map (⇑(orderSwap c1.order (some a.order)) ∘ ⇑(orderSwap a.order (some b)))
        = (s.map Todo.order).map id := by
          apply List.map_congr_left
          intro x _
          simp only [Function.comp, orderSwap, if_neg ha0, if_neg hb, hc1ord, id]
          rw [Equiv.swap_comm b a.order, Equiv.swap_apply_self]
      _ = s.map Todo.order := List.map_id _
  · rw [map_id_save, map_id_reorderStep, map_id_save, map_id_reorderStep]

/-! ## Create -/

/-- C1, as the claim states it, fails: on a store whose only document has order `2 ^ 53`
the create replies 201 with a document of order `2 ^ 53` again, which is not the greatest
stored order plus 1.  The sum `2 ^ 53 + 1` is not a Number and rounds back. -/
theorem postTodos_repeats_order_at_limit :
    postTodos [⟨1, "a", 9007199254740992, .absent⟩] 2 ⟨some "b"⟩
      = ([⟨1, "a", 9007199254740992, .absent⟩, ⟨2, "b", 9007199254740992, .absent⟩],
         .json 201 (.todo ⟨2, "b", 9007199254740992, .absent⟩)) ∧
    ¬ ∃ m ∈ ([⟨1, "a", 9007199254740992, .absent⟩] : Store),
        (9007199254740992 : Int) = m.order + 1 := by
  decide

/-- C1, amended. For every store whose orders are safe integers (magnitude below
`2 ^ 53`), every identifier not yet stored and every value of 1 to 50 code units,
`POST /todos` replies 201 with a new document that carries the given value, no `doneAt`,
and the order 1 when the store is empty and otherwise one more than the greatest stored
order; the document is appended to the store. -/
theorem postTodos_assigns_next_order (s : Store) (newId : TodoId) (value : String)
    (hfresh : ∀ t ∈ s, t.id ≠ newId) (hmin : 1 ≤ jsLength value)
    (hmax : jsLength value ≤ 50) (hsafe : OrdersSafe s) :
    ∃ order : Int,
      postTodos s newId ⟨some value⟩
        = (s ++ [⟨newId, value, order, .absent⟩],
           .json 201 (.todo ⟨newId, value, order, .absent⟩)) ∧
      (s = [] → order = 1) ∧
      (s ≠ [] → (∃ m ∈ s, order = m.order + 1) ∧ ∀ t ∈ s, t.order + 1 ≤ order) :=
  postTodos_valid_safe s newId value hfresh hmin hmax hsafe

/-- Witness of C1 amended, on a store of two documents with orders 4 and 9. -/
theorem postTodos_assigns_next_order_witness :
    ∃ order : Int,
      postTodos [⟨1, "a", 4, .absent⟩, ⟨2, "b", 9, .null⟩] 7 ⟨some "abc"⟩
        = ([⟨1, "a", 4, .absent⟩, ⟨2, "b", 9, .null⟩] ++ [⟨7, "abc", order, .absent⟩],
           .json 201 (.todo ⟨7, "abc", order, .absent⟩)) ∧
      (([⟨1, "a", 4, .absent⟩, ⟨2, "b", 9, .null⟩] : Store) = [] → order = 1) ∧
      (([⟨1, "a", 4, .absent⟩, ⟨2, "b", 9, .null⟩] : Store) ≠ [] →
        (∃ m ∈ ([⟨1, "a", 4, .absent⟩, ⟨2, "b", 9, .null⟩] : Store), order = m.order + 1) ∧
        ∀ t ∈ ([⟨1, "a", 4, .absent⟩, ⟨2, "b", 9, .null⟩] : Store), t.order + 1 ≤ order) :=
  postTodos_assigns_next_order [⟨1, "a", 4, .absent⟩, ⟨2, "b", 9, .null⟩] 7 "abc"
    (by decide) (by decide) (by decide) (by decide)

/-- C4, as the claim states it for every N, fails at `N = 2 ^ 53 + 1`: the creates of
`manyCreates` have pairwise distinct identifiers and valid values, yet the stored orders
they leave are not 1, 2, ..., N.  The k-th is `k` capped at `2 ^ 53`, so the last two
documents both carry `2 ^ 53`. -/
theorem creates_past_limit_repeat_order :
    (manyCreates.map Prod.fst).Nodup ∧
    (∀ p ∈ manyCreates, 1 ≤ jsLength p.2 ∧ jsLength p.2 ≤ 50) ∧
    manyCreates.length = 9007199254740993 ∧
    (run [] (manyCreates.map fun p => Request.post p.1 ⟨some p.2⟩)).map Todo.order
      = (List.range manyCreates.length).map
          (fun (k : Nat) => ((min (k + 1) 9007199254740992 : Nat) : Int)) ∧
    (run [] (manyCreates.map fun p => Request.post p.1 ⟨some p.2⟩)).map Todo.order
      ≠ (List.range manyCreates.length).map fun (k : Nat) => (k : Int) + 1 := by
  have hids : (manyCreates.map Prod.fst).Nodup := by
    rw [manyCreates_fst]
    exact List.nodup_range _
  have horders := run_creates_orders manyCreates hids manyCreates_valid
  refine ⟨hids, manyCreates_valid, manyCreates_length, horders, ?_⟩
  rw [horders]
  intro heq
  have hmem : 9007199254740992 ∈ List.range manyCreates.length := by
    rw [manyCreates_length, List.mem_range]
    decide
  have h := List.map_inj_left.mp heq 9007199254740992 hmem
  revert h
  decide

/-- C4, amended. For every sequence of N creates with pairwise distinct new identifiers
and values of 1 to 50 code units, served from the empty store: the store ends with exactly
the N created documents in creation sequence, each returned with status 201, the k-th
carrying the order `k` capped at `2 ^ 53`; so for every N up to `2 ^ 53` the k-th created
document has order k and the stored orders read 1, 2, ..., N. -/
theorem creates_from_empty_number_in_sequence (creates : List (TodoId × String))
    (hids : (creates.map Prod.fst).Nodup)
    (hvals : ∀ p ∈ creates, 1 ≤ jsLength p.2 ∧ jsLength p.2 ≤ 50) :
    serve [] (creates.map fun p => Request.post p.1 ⟨some p.2⟩)
      = (creates.enum.map
            (fun kp => (⟨kp.2.1, kp.2.2,
              ((min (kp.1 + 1) 9007199254740992 : Nat) : Int), .absent⟩ : Todo)),
         (creates.enum.map
            (fun kp => (⟨kp.2.1, kp.2.2,
              ((min (kp.1 + 1) 9007199254740992 : Nat) : Int), .absent⟩ : Todo))).map
           fun t => Reply.json 201 (.todo t)) ∧
    (creates.length ≤ 9007199254740992 →
      serve [] (creates.map fun p => Request.post p.1 ⟨some p.2⟩)
        = (creates.enum.map
              (fun kp => (⟨kp.2.1, kp.2.2, (kp.1 : Int) + 1, .absent⟩ : Todo)),
           (creates.enum.map
              (fun kp => (⟨kp.2.1, kp.2.2, (kp.1 : Int) + 1, .absent⟩ : Todo))).map
             fun t => Reply.json 201 (.todo t)) ∧
      (run [] (creates.map fun p => Request.post p.1 ⟨some p.2⟩)).map Todo.order
        = (List.range creates.length).map fun (k : Nat) => (k : Int) + 1) := by
  have h := serve_creates creates [] 0 (by intro t ht; cases ht) (fun _ => rfl)
    (fun h => absurd rfl h) (by simpa using hids) hvals
  rw [List.nil_append] at h
  refine ⟨h, ?_⟩
  intro hlen
  have hfun : creates.enum.map
        (fun kp => (⟨kp.2.1, kp.2.2,
          ((min (kp.1 + 1) 9007199254740992 : Nat) : Int), .absent⟩ : Todo))
      = creates.enum.map
        (fun kp => (⟨kp.2.1, kp.2.2, (kp.1 : Int) + 1, .absent⟩ : Todo)) := by
    apply List.map_congr_left
    intro kp hkp
    have hlt := List.fst_lt_of_mem_enum hkp
    have hmin : min (kp.1 + 1) 9007199254740992 = kp.1 + 1 := by omega
    rw [hmin]
    push_cast
    rfl
  have h2 : serve [] (creates.map fun p => Request.post p.1 ⟨some p.2⟩)
      = (creates.enum.map
            (fun kp => (⟨kp.2.1, kp.2.2, (kp.1 : Int) + 1, .absent⟩ : Todo)),
         (creates.enum.map
            (fun kp => (⟨kp.2.1, kp.2.2, (kp.1 : Int) + 1, .absent⟩ : Todo))).map
           fun t => Reply.json 201 (.todo t)) := by
    rw [← hfun]
    exact h
  refine ⟨h2, ?_⟩
  unfold run
  rw [h2]
  simp only [List.map_map]
  rw [← List.enum_map_fst creates, List.map_map]
  rfl

/-- Witness of C4 amended: three creates. -/
theorem creates_from_empty_number_in_sequence_witness :
    serve [] ([(7, "a"), (3, "b"), (9, "c")].map fun p => Request.post p.1 ⟨some p.2⟩)
      = ([(7, "a"), (3, "b"), (9, "c")].enum.map
            (fun kp => (⟨kp.2.1, kp.2.2, (kp.1 : Int) + 1, .absent⟩ : Todo)),
         ([(7, "a"), (3, "b"), (9, "c")].enum.map
            (fun kp => (⟨kp.2.1, kp.2.2, (kp.1 : Int) + 1, .absent⟩ : Todo))).map
           fun t => Reply.json 201 (.todo t)) ∧
    (run [] ([(7, "a"), (3, "b"), (9, "c")].map fun p => Request.post p.1 ⟨some p.2⟩)).map
        Todo.order
      = (List.range [(7, "a"), (3, "b"), (9, "c")].length).map fun (k : Nat) => (k : Int) + 1 :=
  (creates_from_empty_number_in_sequence [(7, "a"), (3, "b"), (9, "c")]
    (by decide) (by decide)).2 (by decide)

/-! ## Reorder -/

/-- C2. In a store with pairwise distinct identifiers and orders, for a stored target
`a` and another stored document `b` whose order is not 0, `PATCH` on `a` with the order
of `b` (whatever `done` and `value` are) replies 200 and leaves `a` with the old order of
`b` and `b` with the old order of `a`.  This holds for the router and for each of the
three registered handlers taken alone. -/
theorem patch_reorder_swaps (now : Nat) (s : Store) (a b : Todo) (done : Option Bool)
    (value : Option String) (hids : IdsDistinct s) (hords : OrdersDistinct s)
    (ha : a ∈ s) (hb : b ∈ s) (hne : b ≠ a) (hb0 : b.order ≠ 0) :
    ((routerPatch now s a.id ⟨some b.order, done, value⟩).2 = .json 200 .empty ∧
      (findById (routerPatch now s a.id ⟨some b.order, done, value⟩).1 a.id).map Todo.order
        = some b.order ∧
      (findById (routerPatch now s a.id ⟨some b.order, done, value⟩).1 b.id).map Todo.order
        = some a.order) ∧
    ((patchTodoFirst s a.id ⟨some b.order, done, value⟩).2 = .json 200 .empty ∧
      (findById (patchTodoFirst s a.id ⟨some b.order, done, value⟩).1 a.id).map Todo.order
        = some b.order ∧
      (findById (patchTodoFirst s a.id ⟨some b.order, done, value⟩).1 b.id).map Todo.order
        = some a.order) ∧
    ((patchTodoSecond now s a.id ⟨some b.order, done, value⟩).2 = .json 200 .empty ∧
      (findById (patchTodoSecond now s a.id ⟨some b.order, done, value⟩).1 a.id).map
        Todo.order = some b.order ∧
      (findById (patchTodoSecond now s a.id ⟨some b.order, done, value⟩).1 b.id).map
        Todo.order = some a.order) ∧
    ((patchTodoThird now s a.id ⟨some b.order, done, value⟩).2 = .json 200 .empty ∧
      (findById (patchTodoThird now s a.id ⟨some b.order, done, value⟩).1 a.id).map
        Todo.order = some b.order ∧
      (findById (patchTodoThird now s a.id ⟨some b.order, done, value⟩).1 b.id).map
        Todo.order = some a.order) := by
  have hfind := findById_of_mem hids ha
  have hord2 : (reorderStep s a (some b.order)).2.order = b.order := by
    simp [reorderStep, hb0]
  refine ⟨?_, ?_, ?_, ?_⟩
  · rw [routerPatch_eq_first, patchTodoFirst_found hfind]
    exact ⟨rfl, swap_core hids hords ha hb hne hb0 _ (reorderStep_snd_id _ _ _) hord2⟩
  · rw [patchTodoFirst_found hfind]
    exact ⟨rfl, swap_core hids hords ha hb hne hb0 _ (reorderStep_snd_id _ _ _) hord2⟩
  · rw [patchTodoSecond_found now hfind]
    exact ⟨rfl, swap_core hids hords ha hb hne hb0 _
      (by simp [reorderStep_snd_id]) (by simp [hord2])⟩
  · rw [patchTodoThird_found now hfind]
    exact ⟨rfl, swap_core hids hords ha hb hne hb0 _
      (by simp [reorderStep_snd_id]) (by simp [hord2])⟩

/-- Witness of C2: A(order 1), B(order 2), request order 2 on A; the router leaves A with
order 2 and B with order 1. -/
theorem patch_reorder_swaps_witness :
    (routerPatch 0 [⟨10, "A", 1, .absent⟩, ⟨20, "B", 2, .absent⟩] 10 ⟨some 2, none, none⟩).2
      = .json 200 .empty ∧
    (findById
      (routerPatch 0 [⟨10, "A", 1, .absent⟩, ⟨20, "B", 2, .absent⟩] 10 ⟨some 2, none, none⟩).1
      10).map Todo.order = some 2 ∧
    (findById
      (routerPatch 0 [⟨10, "A", 1, .absent⟩, ⟨20, "B", 2, .absent⟩] 10 ⟨some 2, none, none⟩).1
      20).map Todo.order = some 1 :=
  (patch_reorder_swaps 0 [⟨10, "A", 1, .absent⟩, ⟨20, "B", 2, .absent⟩]
    ⟨10, "A", 1, .absent⟩ ⟨20, "B", 2, .absent⟩ none none
    (by decide) (by decide) (by decide) (by decide) (by decide) (by decide)).1

/-! ## Order uniqueness -/

/-- C3, as the claim states it, fails: a create, a reorder of the created document to
`2 ^ 53` and a second create, served from the empty store, leave two documents that both
carry the order `2 ^ 53`.  The store before the second create has distinct identifiers and
distinct orders; the store after it is reachable and has not. -/
theorem orders_repeat_after_create_at_limit :
    run [] [.post 1 ⟨some "a"⟩, .patch 0 1 ⟨some 9007199254740992, none, none⟩,
            .post 2 ⟨some "b"⟩]
      = [⟨1, "a", 9007199254740992, .absent⟩, ⟨2, "b", 9007199254740992, .absent⟩] ∧
    Reachable [⟨1, "a", 9007199254740992, .absent⟩, ⟨2, "b", 9007199254740992, .absent⟩] ∧
    ¬ OrdersDistinct
        [⟨1, "a", 9007199254740992, .absent⟩, ⟨2, "b", 9007199254740992, .absent⟩] ∧
    IdsDistinct [⟨1, "a", 9007199254740992, .absent⟩] ∧
    OrdersDistinct [⟨1, "a", 9007199254740992, .absent⟩] ∧
    ¬ OrdersDistinct
        (handle [⟨1, "a", 9007199254740992, .absent⟩] (.post 2 ⟨some "b"⟩)).1 := by
  refine ⟨by decide, ⟨[.post 1 ⟨some "a"⟩,
    .patch 0 1 ⟨some 9007199254740992, none, none⟩, .post 2 ⟨some "b"⟩], by decide⟩,
    by decide, by decide, by decide, by decide⟩

/-- C3, amended. Order uniqueness is kept by every update and every delete, and by a
create whenever the stored orders are safe integers (magnitude below `2 ^ 53`).  In a
store with pairwise distinct identifiers and pairwise distinct orders: a create leaves the
orders distinct when the stored orders are safe integers; an update with any payload,
through the router or any of the three PATCH handlers alone, and a delete leave them
distinct always.  Hence the orders are pairwise distinct in every store reached from the
empty collection by requests that ask for orders of magnitude at most `bound`, when `bound`
plus the number of requests is below `2 ^ 53`. -/
theorem orders_distinct_invariant :
    (∀ (s : Store) (rq : Request), IdsDistinct s → OrdersDistinct s → OrdersSafe s →
      OrdersDistinct (handle s rq).1) ∧
    (∀ (now : Nat) (s : Store) (todoId : TodoId) (body : PatchBody),
      IdsDistinct s → OrdersDistinct s →
      OrdersDistinct (routerPatch now s todoId body).1 ∧
      OrdersDistinct (patchTodoFirst s todoId body).1 ∧
      OrdersDistinct (patchTodoSecond now s todoId body).1 ∧
      OrdersDistinct (patchTodoThird now s todoId body).1) ∧
    (∀ (s : Store) (todoId : TodoId), OrdersDistinct s →
      OrdersDistinct (deleteTodo s todoId).1) ∧
    (∀ (bound : Nat) (rqs : List Request), OrdersWithin bound rqs →
      bound + rqs.length < 9007199254740992 → OrdersDistinct (run [] rqs)) := by
  refine ⟨fun s rq hids hords hsafe => ordersDistinct_handle hids hords hsafe rq, ?_,
    fun s todoId hords => ordersDistinct_deleteTodo hords todoId, ?_⟩
  · intro now s todoId body hids hords
    refine ⟨?_, ordersDistinct_patchTodoFirst hids hords todoId body,
      ordersDistinct_patchTodoSecond now hids hords todoId body,
      ordersDistinct_patchTodoThird now hids hords todoId body⟩
    rw [routerPatch_eq_first]
    exact ordersDistinct_patchTodoFirst hids hords todoId body
  · intro bound rqs hwithin hlen
    exact ordersDistinct_run_within bound rqs [] 0 List.nodup_nil List.nodup_nil
      (by intro t ht; cases ht) hwithin (by omega)

/-- Witness of C3 amended: a create into a store of safe integers, a reorder onto a
free order, a delete, and a run of three requests within the bound 5. -/
theorem orders_distinct_invariant_witness :
    OrdersDistinct
      (handle [⟨10, "A", 1, .absent⟩, ⟨20, "B", 2, .absent⟩] (.post 30 ⟨some "C"⟩)).1 ∧
    OrdersDistinct
      (routerPatch 0 [⟨10, "A", 1, .absent⟩, ⟨20, "B", 2, .absent⟩] 10
        ⟨some 5, some true, some "C"⟩).1 ∧
    OrdersDistinct (deleteTodo [⟨10, "A", 1, .absent⟩, ⟨20, "B", 2, .absent⟩] 10).1 ∧
    OrdersDistinct
      (run [] [.post 1 ⟨some "a"⟩, .patch 0 1 ⟨some 5, none, none⟩, .post 2 ⟨some "b"⟩]) :=
  ⟨orders_distinct_invariant.1 [⟨10, "A", 1, .absent⟩, ⟨20, "B", 2, .absent⟩]
      (.post 30 ⟨some "C"⟩) (by decide) (by decide) (by decide),
   (orders_distinct_invariant.2.1 0 [⟨10, "A", 1, .absent⟩, ⟨20, "B", 2, .absent⟩] 10
      ⟨some 5, some true, some "C"⟩ (by decide) (by decide)).1,
   orders_distinct_invariant.2.2.1 [⟨10, "A", 1, .absent⟩, ⟨20, "B", 2, .absent⟩] 10
      (by decide),
   orders_distinct_invariant.2.2.2 5
      [.post 1 ⟨some "a"⟩, .patch 0 1 ⟨some 5, none, none⟩, .post 2 ⟨some "b"⟩]
      (by
        intro rq hrq o ho
        simp only [List.mem_cons, List.mem_singleton, List.not_mem_nil, or_false] at hrq
        rcases hrq with rfl | rfl | rfl
        · cases ho
        · cases ho
          decide
        · cases ho)
      (by decide)⟩

/-! ## Listing -/

/-- C5. For every store, `GET /todos` replies 200 with a list that holds exactly the
stored documents, each as often as it is stored, arranged with orders descending from
first to last, strictly descending when the stored orders are pairwise distinct; the
store is left as it was. -/
theorem getTodos_lists_all_descending (s : Store) :
    getTodos s = (s, .json 200 (.todos (findSortDescOrder s))) ∧
    List.Perm (findSortDescOrder s) s ∧
    (findSortDescOrder s).Pairwise (fun x y => y.order ≤ x.order) ∧
    (OrdersDistinct s → (findSortDescOrder s).Pairwise (fun x y => y.order < x.order)) := by
  have hperm : List.Perm (findSortDescOrder s) s := List.perm_insertionSort orderDesc s
  have hsorted : (findSortDescOrder s).Pairwise (fun x y => y.order ≤ x.order) :=
    List.sorted_insertionSort orderDesc s
  refine ⟨rfl, hperm, hsorted, ?_⟩
  intro hords
  have hnodup : ((findSortDescOrder s).map Todo.order).Nodup :=
    (List.Perm.nodup_iff (hperm.map Todo.order)).mpr hords
  have hne : (findSortDescOrder s).Pairwise (fun x y => x.order ≠ y.order) := by
    unfold List.Nodup at hnodup
    rw [List.pairwise_map] at hnodup
    exact hnodup
  exact (hsorted.and hne).imp fun h => lt_of_le_of_ne h.1 (Ne.symm h.2)

/-- Witness of C5: three documents stored out of order. -/
theorem getTodos_lists_all_descending_witness :
    (findSortDescOrder [⟨1, "a", 2, .absent⟩, ⟨2, "b", 7, .null⟩, ⟨3, "c", 4, .absent⟩]).Pairwise
      (fun x y => y.order < x.order) :=
  (getTodos_lists_all_descending
    [⟨1, "a", 2, .absent⟩, ⟨2, "b", 7, .null⟩, ⟨3, "c", 4, .absent⟩]).2.2.2 (by decide)

/-! ## Not found -/

/-- C6. For every store and every identifier no stored document has, `PATCH` with any
payload (through the router, and through each of the three registered handlers alone) and
`DELETE` reply 404 with the error message and leave the store as it was. -/
theorem patch_delete_not_found (now : Nat) (s : Store) (todoId : TodoId) (body : PatchBody)
    (h : ∀ t ∈ s, t.id ≠ todoId) :
    routerPatch now s todoId body = (s, .json 404 (.errorMessage notFoundMessage)) ∧
    patchTodoFirst s todoId body = (s, .json 404 (.errorMessage notFoundMessage)) ∧
    patchTodoSecond now s todoId body = (s, .json 404 (.errorMessage notFoundMessage)) ∧
    patchTodoThird now s todoId body = (s, .json 404 (.errorMessage notFoundMessage)) ∧
    deleteTodo s todoId = (s, .json 404 (.errorMessage notFoundMessage)) := by
  have hf := findById_none h
  refine ⟨?_, ?_, ?_, ?_, ?_⟩
  · rw [routerPatch_eq_first]
    simp [patchTodoFirst, hf]
  · simp [patchTodoFirst, hf]
  · simp [patchTodoSecond, hf]
  · simp [patchTodoThird, hf]
  · simp [deleteTodo, hf]

/-- Witness of C6: identifier 99 in a store holding identifiers 10 and 20. -/
theorem patch_delete_not_found_witness :
    routerPatch 0 [⟨10, "A", 1, .absent⟩, ⟨20, "B", 2, .absent⟩] 99 ⟨some 2, some true, some "x"⟩
      = ([⟨10, "A", 1, .absent⟩, ⟨20, "B", 2, .absent⟩],
         .json 404 (.errorMessage notFoundMessage)) ∧
    patchTodoFirst [⟨10, "A", 1, .absent⟩, ⟨20, "B", 2, .absent⟩] 99
        ⟨some 2, some true, some "x"⟩
      = ([⟨10, "A", 1, .absent⟩, ⟨20, "B", 2, .absent⟩],
         .json 404 (.errorMessage notFoundMessage)) ∧
    patchTodoSecond 0 [⟨10, "A", 1, .absent⟩, ⟨20, "B", 2, .absent⟩] 99
        ⟨some 2, some true, some "x"⟩
      = ([⟨10, "A", 1, .absent⟩, ⟨20, "B", 2, .absent⟩],
         .json 404 (.errorMessage notFoundMessage)) ∧
    patchTodoThird 0 [⟨10, "A", 1, .absent⟩, ⟨20, "B", 2, .absent⟩] 99
        ⟨some 2, some true, some "x"⟩
      = ([⟨10, "A", 1, .absent⟩, ⟨20, "B", 2, .absent⟩],
         .json 404 (.errorMessage notFoundMessage)) ∧
    deleteTodo [⟨10, "A", 1, .absent⟩, ⟨20, "B", 2, .absent⟩] 99
      = ([⟨10, "A", 1, .absent⟩, ⟨20, "B", 2, .absent⟩],
         .json 404 (.errorMessage notFoundMessage)) :=
  patch_delete_not_found 0 [⟨10, "A", 1, .absent⟩, ⟨20, "B", 2, .absent⟩] 99
    ⟨some 2, some true, some "x"⟩ (by decide)

/-! ## Validation -/

/-- C7. For every store and every create request whose `value` is missing, has length 0
or has more than 50 code units, `POST /todos` forwards a validation error to the error
handler and leaves the store as it was. -/
theorem postTodos_rejects_out_of_bounds (s : Store) (newId : TodoId) (body : CreateBody)
    (h : body.value = none ∨ ∃ v, body.value = some v ∧ (jsLength v = 0 ∨ 50 < jsLength v)) :
    postTodos s newId body = (s, .nextError .validation) :=
  postTodos_invalid s newId body h

/-- Witness of C7: a value of length 0 and a value of length 51. -/
theorem postTodos_rejects_out_of_bounds_witness :
    postTodos [⟨10, "A", 1, .absent⟩] 11 ⟨some ""⟩
      = ([⟨10, "A", 1, .absent⟩], .nextError .validation) ∧
    postTodos [⟨10, "A", 1, .absent⟩] 11 ⟨some (String.mk (List.replicate 51 'a'))⟩
      = ([⟨10, "A", 1, .absent⟩], .nextError .validation) :=
  ⟨postTodos_rejects_out_of_bounds [⟨10, "A", 1, .absent⟩] 11 ⟨some ""⟩
      (Or.inr ⟨"", rfl, Or.inl (by decide)⟩),
   postTodos_rejects_out_of_bounds [⟨10, "A", 1, .absent⟩] 11
      ⟨some (String.mk (List.replicate 51 'a'))⟩
      (Or.inr ⟨String.mk (List.replicate 51 'a'), rfl, Or.inr (by decide)⟩)⟩

/-- C8, as the claim states it, fails: a value of one blank has trimmed length 0, yet
`POST /todos` stores it and replies 201; so success is not equivalent to a trimmed length
of 1 to 50. -/
theorem postTodos_accepts_blank_value :
    postTodos [] 1 ⟨some " "⟩
      = ([⟨1, " ", 1, .absent⟩], .json 201 (.todo ⟨1, " ", 1, .absent⟩)) ∧
    jsLength (jsTrim " ") = 0 ∧
    ¬ (∀ v : String,
        (∃ t, (postTodos [] 1 ⟨some v⟩).2 = .json 201 (.todo t)) ↔
          (1 ≤ jsLength (jsTrim v) ∧ jsLength (jsTrim v) ≤ 50)) := by
  refine ⟨by decide, by decide, ?_⟩
  intro h
  have h1 : ∃ t, (postTodos [] 1 ⟨some " "⟩).2 = .json 201 (.todo t) :=
    ⟨⟨1, " ", 1, .absent⟩, by decide⟩
  have h2 := ((h " ").mp h1).1
  revert h2
  decide

/-- C8, amended. For every store, every identifier not yet stored and every string value,
`POST /todos` replies 201 exactly when the value as sent, untrimmed, has 1 to 50 code
units; otherwise it forwards a validation error and stores nothing. -/
theorem postTodos_succeeds_iff_raw_length (s : Store) (newId : TodoId) (v : String)
    (hfresh : ∀ t ∈ s, t.id ≠ newId) :
    ((∃ t, (postTodos s newId ⟨some v⟩).2 = .json 201 (.todo t)) ↔
      (1 ≤ jsLength v ∧ jsLength v ≤ 50)) ∧
    (¬ (1 ≤ jsLength v ∧ jsLength v ≤ 50) →
      postTodos s newId ⟨some v⟩ = (s, .nextError .validation)) := by
  have hbad : ¬ (1 ≤ jsLength v ∧ jsLength v ≤ 50) →
      postTodos s newId ⟨some v⟩ = (s, .nextError .validation) := by
    intro hn
    apply postTodos_invalid
    right
    refine ⟨v, rfl, ?_⟩
    omega
  refine ⟨⟨?_, ?_⟩, hbad⟩
  · rintro ⟨t, ht⟩
    by_contra hn
    rw [hbad hn] at ht
    cases ht
  · rintro ⟨hmin, hmax⟩
    obtain ⟨o, ho, _⟩ := postTodos_valid s newId v hfresh hmin hmax
    exact ⟨_, by rw [ho]⟩

/-- Witness of C8 amended: a value of three blanks into a store of one document. -/
theorem postTodos_succeeds_iff_raw_length_witness :
    ((∃ t, (postTodos [⟨10, "A", 1, .absent⟩] 11 ⟨some "   "⟩).2 = .json 201 (.todo t)) ↔
      (1 ≤ jsLength "   " ∧ jsLength "   " ≤ 50)) ∧
    (¬ (1 ≤ jsLength "   " ∧ jsLength "   " ≤ 50) →
      postTodos [⟨10, "A", 1, .absent⟩] 11 ⟨some "   "⟩
        = ([⟨10, "A", 1, .absent⟩], .nextError .validation)) :=
  postTodos_succeeds_iff_raw_length [⟨10, "A", 1, .absent⟩] 11 "   " (by decide)

/-! ## Value bound -/

/-- C9. The value bound is an invariant of the store the router serves.  If every stored
value has 1 to 50 code units, so has every value in the store left by any request to the
router (create, list, update with any order, done and value payload, delete); every store
reachable from the empty collection has all values within the bound, and none empty. -/
theorem values_bounded_invariant :
    (∀ (s : Store) (rq : Request), ValuesBounded s → ValuesBounded (handle s rq).1) ∧
    (∀ s : Store, Reachable s → ValuesBounded s) ∧
    (∀ s : Store, Reachable s → ∀ t ∈ s, t.value ≠ "") := by
  have hreach : ∀ s : Store, Reachable s → ValuesBounded s := by
    rintro s ⟨rqs, rfl⟩
    exact run_invariant ValuesBounded (fun st rq _ h => valuesBounded_handle h rq)
      rqs [] List.nodup_nil (fun t ht => by cases ht)
  refine ⟨fun s rq hv => valuesBounded_handle hv rq, hreach, ?_⟩
  intro s hs t ht hempty
  have h := (hreach s hs t ht).1
  rw [hempty, jsLength_empty] at h
  omega

/-- Witness of C9: an update that sends a value of 51 code units, and the store reached
from the empty collection by one create. -/
theorem values_bounded_invariant_witness :
    ValuesBounded
      (handle [⟨10, "A", 1, .absent⟩, ⟨20, "B", 2, .absent⟩]
        (.patch 0 10 ⟨some 2, some true, some (String.mk (List.replicate 51 'b'))⟩)).1 ∧
    ValuesBounded [⟨10, "A", 1, .absent⟩] ∧
    (∀ t ∈ ([⟨10, "A", 1, .absent⟩] : Store), t.value ≠ "") :=
  ⟨values_bounded_invariant.1 [⟨10, "A", 1, .absent⟩, ⟨20, "B", 2, .absent⟩]
      (.patch 0 10 ⟨some 2, some true, some (String.mk (List.replicate 51 'b'))⟩) (by decide),
   values_bounded_invariant.2.1 [⟨10, "A", 1, .absent⟩] ⟨[.post 10 ⟨some "A"⟩], by decide⟩,
   values_bounded_invariant.2.2 [⟨10, "A", 1, .absent⟩] ⟨[.post 10 ⟨some "A"⟩], by decide⟩⟩

/-! ## Completion toggle -/

/-- C10, the router at the failing inputs: `PATCH` with `done = true` on a document
without `doneAt` replies 200 and leaves `doneAt` unset, and `PATCH` with `done = false` on
a completed document replies 200 and leaves its `doneAt` date in place.  The request is
served by the handler registered first, which does not read `done`. -/
theorem routerPatch_ignores_done :
    routerPatch 1000 [⟨1, "a", 1, .absent⟩] 1 ⟨none, some true, none⟩
      = ([⟨1, "a", 1, .absent⟩], .json 200 .empty) ∧
    routerPatch 2000 [⟨1, "a", 1, .date 1000⟩] 1 ⟨none, some false, none⟩
      = ([⟨1, "a", 1, .date 1000⟩], .json 200 .empty) := by
  decide

/-! ## Which PATCH handler serves -/

/-- C11, the router against the handler registered last, on a store of two documents and
the request `PATCH` on the first with order 2, `done = true` and value "b": the router
swaps the orders and changes nothing else; the last handler alone would also set `doneAt`
and the value.  The two results differ. -/
theorem routerPatch_differs_from_last_handler :
    routerPatch 1000 [⟨1, "a", 1, .absent⟩, ⟨2, "c", 2, .absent⟩] 1 ⟨some 2, some true, some "b"⟩
      = ([⟨1, "a", 2, .absent⟩, ⟨2, "c", 1, .absent⟩], .json 200 .empty) ∧
    patchTodoThird 1000 [⟨1, "a", 1, .absent⟩, ⟨2, "c", 2, .absent⟩] 1
        ⟨some 2, some true, some "b"⟩
      = ([⟨1, "b", 2, .date 1000⟩, ⟨2, "c", 1, .absent⟩], .json 200 .empty) ∧
    routerPatch 1000 [⟨1, "a", 1, .absent⟩, ⟨2, "c", 2, .absent⟩] 1 ⟨some 2, some true, some "b"⟩
      ≠ patchTodoThird 1000 [⟨1, "a", 1, .absent⟩, ⟨2, "c", 2, .absent⟩] 1
          ⟨some 2, some true, some "b"⟩ := by
  decide

/-! ## Delete -/

/-- C12. In a store with pairwise distinct identifiers, `DELETE` on the identifier of a
stored document replies 200 and leaves the store without that document and with every
other document as it was, in place (one document fewer, nothing renumbered).  A list served
next holds no document with that identifier, and an update (through the router or any of
the three handlers alone) or a delete on that identifier served next replies 404. -/
theorem deleteTodo_removes_exactly_target (now : Nat) (s : Store) (todoId : TodoId) (a : Todo)
    (body : PatchBody) (hids : IdsDistinct s) (hf : findById s todoId = some a) :
    deleteTodo s todoId = (s.filter (fun t => t.id != todoId), .json 200 .empty) ∧
    (∀ t, t ∈ (deleteTodo s todoId).1 ↔ t ∈ s ∧ t.id ≠ todoId) ∧
    (deleteTodo s todoId).1.length + 1 = s.length ∧
    (∀ t ∈ findSortDescOrder (deleteTodo s todoId).1, t.id ≠ todoId) ∧
    routerPatch now (deleteTodo s todoId).1 todoId body
      = ((deleteTodo s todoId).1, .json 404 (.errorMessage notFoundMessage)) ∧
    patchTodoFirst (deleteTodo s todoId).1 todoId body
      = ((deleteTodo s todoId).1, .json 404 (.errorMessage notFoundMessage)) ∧
    patchTodoSecond now (deleteTodo s todoId).1 todoId body
      = ((deleteTodo s todoId).1, .json 404 (.errorMessage notFoundMessage)) ∧
    patchTodoThird now (deleteTodo s todoId).1 todoId body
      = ((deleteTodo s todoId).1, .json 404 (.errorMessage notFoundMessage)) ∧
    deleteTodo (deleteTodo s todoId).1 todoId
      = ((deleteTodo s todoId).1, .json 404 (.errorMessage notFoundMessage)) := by
  have hdel : deleteTodo s todoId = (s.filter (fun t => t.id != todoId), .json 200 .empty) := by
    rw [deleteTodo_found hf, deleteOne_eq_filter hids]
  have hmem : ∀ t, t ∈ (deleteTodo s todoId).1 ↔ t ∈ s ∧ t.id ≠ todoId := by
    intro t
    rw [hdel]
    simp [List.mem_filter]
  have hgone : ∀ t ∈ (deleteTodo s todoId).1, t.id ≠ todoId := fun t ht => ((hmem t).mp ht).2
  have hfind : findById (deleteTodo s todoId).1 todoId = none := findById_none hgone
  refine ⟨hdel, hmem, ?_, ?_, ?_, ?_, ?_, ?_, ?_⟩
  · rw [deleteTodo_found hf]
    exact length_deleteOne hf
  · intro t ht
    exact hgone t ((List.perm_insertionSort orderDesc _).subset ht)
  · rw [routerPatch_eq_first]
    simp [patchTodoFirst, hfind]
  · simp [patchTodoFirst, hfind]
  · simp [patchTodoSecond, hfind]
  · simp [patchTodoThird, hfind]
  · exact deleteTodo_not_found hfind

/-- Witness of C12: the middle one of three documents is deleted. -/
theorem deleteTodo_removes_exactly_target_witness :
    deleteTodo [⟨1, "a", 1, .absent⟩, ⟨2, "b", 2, .null⟩, ⟨3, "c", 3, .date 5⟩] 2
      = ([⟨1, "a", 1, .absent⟩, ⟨2, "b", 2, .null⟩, ⟨3, "c", 3, .date 5⟩].filter
          (fun t => t.id != 2), .json 200 .empty) :=
  (deleteTodo_removes_exactly_target 0
    [⟨1, "a", 1, .absent⟩, ⟨2, "b", 2, .null⟩, ⟨3, "c", 3, .date 5⟩] 2 ⟨2, "b", 2, .null⟩
    ⟨none, none, none⟩ (by decide) (by decide)).1

/-! ## Content edit -/

/-- C13, the router at the failing input: `PATCH` with the non-empty value "b" on a
document whose value is "a" replies 200 and leaves the value "a".  The request is served by
the handler registered first, which does not read `value`. -/
theorem routerPatch_ignores_value :
    routerPatch 1000 [⟨1, "a", 1, .absent⟩] 1 ⟨none, none, some "b"⟩
      = ([⟨1, "a", 1, .absent⟩], .json 200 .empty) ∧
    (findById (routerPatch 1000 [⟨1, "a", 1, .absent⟩] 1 ⟨none, none, some "b"⟩).1 1).map
        Todo.value = some "a" := by
  decide

/-! ## Order 0 -/

/-- C14. For every store and every stored target, `PATCH` with `order` 0 or with `order`
missing, whatever `done` and `value` are, leaves the sequence of identifiers and orders of
the store as it was: no document changes its order.  This holds for the router and for
each of the three registered handlers taken alone. -/
theorem patch_order_zero_keeps_orders (now : Nat) (s : Store) (todoId : TodoId) (a : Todo)
    (body : PatchBody) (hf : findById s todoId = some a)
    (ho : body.order = none ∨ body.order = some 0) :
    (routerPatch now s todoId body).1.map (fun t => (t.id, t.order))
      = s.map (fun t => (t.id, t.order)) ∧
    (patchTodoFirst s todoId body).1.map (fun t => (t.id, t.order))
      = s.map (fun t => (t.id, t.order)) ∧
    (patchTodoSecond now s todoId body).1.map (fun t => (t.id, t.order))
      = s.map (fun t => (t.id, t.order)) ∧
    (patchTodoThird now s todoId body).1.map (fun t => (t.id, t.order))
      = s.map (fun t => (t.id, t.order)) := by
  refine ⟨?_, ?_, ?_, ?_⟩
  · rw [routerPatch_eq_first, patchTodoFirst_found hf]
    exact map_id_order_patch_noreorder hf ho _ (reorderStep_snd_id _ _ _) rfl
  · rw [patchTodoFirst_found hf]
    exact map_id_order_patch_noreorder hf ho _ (reorderStep_snd_id _ _ _) rfl
  · rw [patchTodoSecond_found now hf]
    exact map_id_order_patch_noreorder hf ho _ (by simp [reorderStep_snd_id]) (by simp)
  · rw [patchTodoThird_found now hf]
    exact map_id_order_patch_noreorder hf ho _ (by simp [reorderStep_snd_id]) (by simp)

/-- Witness of C14: order 0 with `done` and `value` set, on the second of two documents. -/
theorem patch_order_zero_keeps_orders_witness :
    (routerPatch 7 [⟨10, "A", 1, .absent⟩, ⟨20, "B", 2, .absent⟩] 20
        ⟨some 0, some true, some "x"⟩).1.map (fun t => (t.id, t.order))
      = ([⟨10, "A", 1, .absent⟩, ⟨20, "B", 2, .absent⟩] : Store).map
          (fun t => (t.id, t.order)) :=
  (patch_order_zero_keeps_orders 7 [⟨10, "A", 1, .absent⟩, ⟨20, "B", 2, .absent⟩] 20
    ⟨20, "B", 2, .absent⟩ ⟨some 0, some true, some "x"⟩ (by decide) (Or.inr rfl)).1

/-! ## Create: frame and listing -/

/-- C15. For every store, every identifier not yet stored and every value of 1 to 50
code units, `POST /todos` leaves every document stored before in place and unchanged and
adds exactly one document, the one it returns: the store after is the store before with
the returned document appended. -/
theorem postTodos_adds_exactly_one (s : Store) (newId : TodoId) (value : String)
    (hfresh : ∀ t ∈ s, t.id ≠ newId) (hmin : 1 ≤ jsLength value)
    (hmax : jsLength value ≤ 50) :
    ∃ t : Todo,
      postTodos s newId ⟨some value⟩ = (s ++ [t], .json 201 (.todo t)) ∧
      t.id = newId ∧
      (∀ u ∈ s, u ∈ (postTodos s newId ⟨some value⟩).1 ∧ u.id ≠ t.id) ∧
      (∀ u ∈ (postTodos s newId ⟨some value⟩).1, u ∈ s ∨ u = t) ∧
      (postTodos s newId ⟨some value⟩).1.length = s.length + 1 := by
  obtain ⟨o, ho, _⟩ := postTodos_valid s newId value hfresh hmin hmax
  refine ⟨⟨newId, value, o, .absent⟩, ho, rfl, ?_, ?_, ?_⟩
  · intro u hu
    rw [ho]
    exact ⟨List.mem_append_left _ hu, hfresh u hu⟩
  · intro u hu
    rw [ho] at hu
    rcases List.mem_append.mp hu with h | h
    · exact Or.inl h
    · exact Or.inr (List.mem_singleton.mp h)
  · rw [ho]
    simp

/-- Witness of C15: a create into a store of two documents. -/
theorem postTodos_adds_exactly_one_witness :
    ∃ t : Todo,
      postTodos [⟨1, "a", 4, .absent⟩, ⟨2, "b", 9, .null⟩] 7 ⟨some "abc"⟩
        = ([⟨1, "a", 4, .absent⟩, ⟨2, "b", 9, .null⟩] ++ [t], .json 201 (.todo t)) ∧
      t.id = 7 ∧
      (∀ u ∈ ([⟨1, "a", 4, .absent⟩, ⟨2, "b", 9, .null⟩] : Store),
        u ∈ (postTodos [⟨1, "a", 4, .absent⟩, ⟨2, "b", 9, .null⟩] 7 ⟨some "abc"⟩).1 ∧
        u.id ≠ t.id) ∧
      (∀ u ∈ (postTodos [⟨1, "a", 4, .absent⟩, ⟨2, "b", 9, .null⟩] 7 ⟨some "abc"⟩).1,
        u ∈ ([⟨1, "a", 4, .absent⟩, ⟨2, "b", 9, .null⟩] : Store) ∨ u = t) ∧
      (postTodos [⟨1, "a", 4, .absent⟩, ⟨2, "b", 9, .null⟩] 7 ⟨some "abc"⟩).1.length
        = ([⟨1, "a", 4, .absent⟩, ⟨2, "b", 9, .null⟩] : Store).length + 1 :=
  postTodos_adds_exactly_one [⟨1, "a", 4, .absent⟩, ⟨2, "b", 9, .null⟩] 7 "abc"
    (by decide) (by decide) (by decide)

/-- C19, as the claim states it, fails: on a store whose only document has order
`2 ^ 53` the document the create returns has order `2 ^ 53` as well, so its order is not
strictly greater than every order stored before. -/
theorem postTodos_created_not_greater_at_limit :
    (postTodos [⟨5, "x", 9007199254740992, .null⟩] 6 ⟨some "y"⟩).2
      = .json 201 (.todo ⟨6, "y", 9007199254740992, .absent⟩) ∧
    ¬ ∀ u ∈ ([⟨5, "x", 9007199254740992, .null⟩] : Store),
        u.order < (⟨6, "y", 9007199254740992, .absent⟩ : Todo).order := by
  decide

/-- C19, amended. For every store whose orders are safe integers (magnitude below
`2 ^ 53`), every identifier not yet stored and every value of 1 to 50 code units, the
document `POST /todos` returns has an order strictly greater than the order of every
document stored before, and `GET /todos` served right after returns it as the first
element of the list. -/
theorem postTodos_created_is_listed_first (s : Store) (newId : TodoId) (value : String)
    (hfresh : ∀ t ∈ s, t.id ≠ newId) (hmin : 1 ≤ jsLength value)
    (hmax : jsLength value ≤ 50) (hsafe : OrdersSafe s) :
    ∃ (t : Todo) (rest : List Todo),
      (postTodos s newId ⟨some value⟩).2 = .json 201 (.todo t) ∧
      (∀ u ∈ s, u.order < t.order) ∧
      (getTodos (postTodos s newId ⟨some value⟩).1).2 = .json 200 (.todos (t :: rest)) := by
  obtain ⟨o, ho, ho1, ho2⟩ := postTodos_valid_safe s newId value hfresh hmin hmax hsafe
  have hgt : ∀ u ∈ s, u.order < o := by
    intro u hu
    have := (ho2 (List.ne_nil_of_mem hu)).2 u hu
    omega
  obtain ⟨rest, hrest⟩ := findSortDescOrder_append_max s ⟨newId, value, o, .absent⟩ hgt
  refine ⟨⟨newId, value, o, .absent⟩, rest, by rw [ho], hgt, ?_⟩
  rw [ho]
  simp only [getTodos]
  rw [hrest]

/-- Witness of C19 amended: a create into a store of two documents with orders 4 and 9. -/
theorem postTodos_created_is_listed_first_witness :
    ∃ (t : Todo) (rest : List Todo),
      (postTodos [⟨1, "a", 4, .absent⟩, ⟨2, "b", 9, .null⟩] 7 ⟨some "abc"⟩).2
        = .json 201 (.todo t) ∧
      (∀ u ∈ ([⟨1, "a", 4, .absent⟩, ⟨2, "b", 9, .null⟩] : Store), u.order < t.order) ∧
      (getTodos (postTodos [⟨1, "a", 4, .absent⟩, ⟨2, "b", 9, .null⟩] 7 ⟨some "abc"⟩).1).2
        = .json 200 (.todos (t :: rest)) :=
  postTodos_created_is_listed_first [⟨1, "a", 4, .absent⟩, ⟨2, "b", 9, .null⟩] 7 "abc"
    (by decide) (by decide) (by decide) (by decide)

/-! ## Update: frame -/

/-- C16. In a store with pairwise distinct identifiers, for every stored target and every
payload, `PATCH` replies 200, keeps the sequence of identifiers, leaves every document
other than the target and the document found holding the requested non-zero order exactly
as it was, changes of that holder only the order (to the order the target had), and
changes only the target when no document holds the requested order.  This holds for the
router and for each of the three registered handlers taken alone. -/
theorem patch_touches_target_and_partner_only (now : Nat) (s : Store) (todoId : TodoId)
    (a : Todo) (body : PatchBody) (hids : IdsDistinct s)
    (hf : findById s todoId = some a) :
    UpdateFrame s todoId body.order (routerPatch now s todoId body) ∧
    UpdateFrame s todoId body.order (patchTodoFirst s todoId body) ∧
    UpdateFrame s todoId body.order (patchTodoSecond now s todoId body) ∧
    UpdateFrame s todoId body.order (patchTodoThird now s todoId body) := by
  refine ⟨?_, ?_, ?_, ?_⟩
  · rw [routerPatch_eq_first, patchTodoFirst_found hf]
    exact updateFrame_core hids hf _ _ (reorderStep_snd_id _ _ _)
  · rw [patchTodoFirst_found hf]
    exact updateFrame_core hids hf _ _ (reorderStep_snd_id _ _ _)
  · rw [patchTodoSecond_found now hf]
    exact updateFrame_core hids hf _ _ (by simp [reorderStep_snd_id])
  · rw [patchTodoThird_found now hf]
    exact updateFrame_core hids hf _ _ (by simp [reorderStep_snd_id])

/-- Witness of C16: of three documents the first is moved to the order of the second; the
third is found as it was and the second with order 1 and nothing else changed. -/
theorem patch_touches_target_and_partner_only_witness :
    UpdateFrame [⟨10, "A", 1, .absent⟩, ⟨20, "B", 2, .null⟩, ⟨30, "C", 3, .date 4⟩] 10
      (some 2)
      (routerPatch 9 [⟨10, "A", 1, .absent⟩, ⟨20, "B", 2, .null⟩, ⟨30, "C", 3, .date 4⟩] 10
        ⟨some 2, some true, some "x"⟩) :=
  (patch_touches_target_and_partner_only 9
    [⟨10, "A", 1, .absent⟩, ⟨20, "B", 2, .null⟩, ⟨30, "C", 3, .date 4⟩] 10
    ⟨10, "A", 1, .absent⟩ ⟨some 2, some true, some "x"⟩ (by decide) (by decide)).1

/-! ## Reorder: own position and round trip -/

/-- C17. In a store with pairwise distinct identifiers and orders, for a stored target
whose order is not 0, `PATCH` with exactly that order and with `done` and `value` missing
replies 200 and leaves the store as it was: the lookup by order finds the target itself
and no order, value or `doneAt` changes.  This holds for the router and for each of the
three registered handlers taken alone. -/
theorem patch_own_order_changes_nothing (now : Nat) (s : Store) (a : Todo)
    (hids : IdsDistinct s) (hords : OrdersDistinct s) (ha : a ∈ s) (ha0 : a.order ≠ 0) :
    findOneByOrder s a.order = some a ∧
    routerPatch now s a.id ⟨some a.order, none, none⟩ = (s, .json 200 .empty) ∧
    patchTodoFirst s a.id ⟨some a.order, none, none⟩ = (s, .json 200 .empty) ∧
    patchTodoSecond now s a.id ⟨some a.order, none, none⟩ = (s, .json 200 .empty) ∧
    patchTodoThird now s a.id ⟨some a.order, none, none⟩ = (s, .json 200 .empty) := by
  have hf := findById_of_mem hids ha
  have hstep := reorderStep_self hids hords ha ha0
  refine ⟨findOneByOrder_of_mem hords ha, ?_, ?_, ?_, ?_⟩
  · rw [routerPatch_eq_first, patchTodoFirst_found hf]
    simp only
    rw [hstep, save_self hids ha]
  · rw [patchTodoFirst_found hf]
    simp only
    rw [hstep, save_self hids ha]
  · rw [patchTodoSecond_found now hf]
    simp only [doneStep]
    rw [hstep, save_self hids ha]
  · rw [patchTodoThird_found now hf]
    simp only [doneStep, valueStep]
    rw [hstep, save_self hids ha]

/-- Witness of C17: the second of two documents is moved to its own order 2. -/
theorem patch_own_order_changes_nothing_witness :
    routerPatch 3 [⟨10, "A", 1, .absent⟩, ⟨20, "B", 2, .date 1⟩] 20 ⟨some 2, none, none⟩
      = ([⟨10, "A", 1, .absent⟩, ⟨20, "B", 2, .date 1⟩], .json 200 .empty) :=
  (patch_own_order_changes_nothing 3 [⟨10, "A", 1, .absent⟩, ⟨20, "B", 2, .date 1⟩]
    ⟨20, "B", 2, .date 1⟩ (by decide) (by decide) (by decide) (by decide)).2.1

/-- C18. In a store with pairwise distinct identifiers and orders, for a stored target
whose order `a` is not 0 and any non-zero `b` (held by another document or by none),
`PATCH` on the target with order `b` followed by `PATCH` on the target with order `a`
leaves the sequence of identifiers and the sequence of orders of the store as they were at
the start, whatever `done` and `value` the two requests carry.  This holds for the router
and for each of the three registered handlers taken alone. -/
theorem patch_reorder_and_back_restores_orders (now1 now2 : Nat) (s : Store) (a : Todo)
    (b : Int) (done1 done2 : Option Bool) (value1 value2 : Option String)
    (hids : IdsDistinct s) (hords : OrdersDistinct s) (ha : a ∈ s) (ha0 : a.order ≠ 0)
    (hb : b ≠ 0) :
    ((routerPatch now2 (routerPatch now1 s a.id ⟨some b, done1, value1⟩).1 a.id
        ⟨some a.order, done2, value2⟩).1.map Todo.order = s.map Todo.order ∧
      (routerPatch now2 (routerPatch now1 s a.id ⟨some b, done1, value1⟩).1 a.id
        ⟨some a.order, done2, value2⟩).1.map Todo.id = s.map Todo.id) ∧
    ((patchTodoFirst (patchTodoFirst s a.id ⟨some b, done1, value1⟩).1 a.id
        ⟨some a.order, done2, value2⟩).1.map Todo.order = s.map Todo.order ∧
      (patchTodoFirst (patchTodoFirst s a.id ⟨some b, done1, value1⟩).1 a.id
        ⟨some a.order, done2, value2⟩).1.map Todo.id = s.map Todo.id) ∧
    ((patchTodoSecond now2 (patchTodoSecond now1 s a.id ⟨some b, done1, value1⟩).1 a.id
        ⟨some a.order, done2, value2⟩).1.map Todo.order = s.map Todo.order ∧
      (patchTodoSecond now2 (patchTodoSecond now1 s a.id ⟨some b, done1, value1⟩).1 a.id
        ⟨some a.order, done2, value2⟩).1.map Todo.id = s.map Todo.id) ∧
    ((patchTodoThird now2 (patchTodoThird now1 s a.id ⟨some b, done1, value1⟩).1 a.id
        ⟨some a.order, done2, value2⟩).1.map Todo.order = s.map Todo.order ∧
      (patchTodoThird now2 (patchTodoThird now1 s a.id ⟨some b, done1, value1⟩).1 a.id
        ⟨some a.order, done2, value2⟩).1.map Todo.id = s.map Todo.id) := by
  have hf := findById_of_mem hids ha
  have hfirst : ((patchTodoFirst (patchTodoFirst s a.id ⟨some b, done1, value1⟩).1 a.id
        ⟨some a.order, done2, value2⟩).1.map Todo.order = s.map Todo.order ∧
      (patchTodoFirst (patchTodoFirst s a.id ⟨some b, done1, value1⟩).1 a.id
        ⟨some a.order, done2, value2⟩).1.map Todo.id = s.map Todo.id) := by
    rw [patchTodoFirst_found hf]
    simp only
    rw [patchTodoFirst_found (findById_patch_core hf (some b) _ (reorderStep_snd_id _ _ _))]
    exact reorder_back_core hids hords hf ha0 hb _ (reorderStep_snd_id _ _ _)
      (reorderStep_snd_order a hb) _
      ((reorderStep_snd_id _ _ _).trans (reorderStep_snd_id _ _ _))
      (reorderStep_snd_order _ ha0)
  refine ⟨?_, hfirst, ?_, ?_⟩
  · rw [routerPatch_eq_first, routerPatch_eq_first]
    exact hfirst
  · rw [patchTodoSecond_found now1 hf]
    simp only
    rw [patchTodoSecond_found now2
      (findById_patch_core hf (some b) _ (by simp [reorderStep_snd_id]))]
    exact reorder_back_core hids hords hf ha0 hb _ (by simp [reorderStep_snd_id])
      (by simp [reorderStep_snd_order a hb]) _
      (by simp [reorderStep_snd_id])
      (by simp [reorderStep_snd_order _ ha0])
  · rw [patchTodoThird_found now1 hf]
    simp only
    rw [patchTodoThird_found now2
      (findById_patch_core hf (some b) _ (by simp [reorderStep_snd_id]))]
    exact reorder_back_core hids hords hf ha0 hb _ (by simp [reorderStep_snd_id])
      (by simp [reorderStep_snd_order a hb]) _
      (by simp [reorderStep_snd_id])
      (by simp [reorderStep_snd_order _ ha0])

/-- Witness of C18: of three documents the first goes to order 3 and back to order 1. -/
theorem patch_reorder_and_back_restores_orders_witness :
    (routerPatch 2
        (routerPatch 1 [⟨10, "A", 1, .absent⟩, ⟨20, "B", 2, .null⟩, ⟨30, "C", 3, .absent⟩] 10
          ⟨some 3, none, none⟩).1 10 ⟨some 1, none, none⟩).1.map Todo.order
      = ([⟨10, "A", 1, .absent⟩, ⟨20, "B", 2, .null⟩, ⟨30, "C", 3, .absent⟩] : Store).map
          Todo.order ∧
    (routerPatch 2
        (routerPatch 1 [⟨10, "A", 1, .absent⟩, ⟨20, "B", 2, .null⟩, ⟨30, "C", 3, .absent⟩] 10
          ⟨some 3, none, none⟩).1 10 ⟨some 1, none, none⟩).1.map Todo.id
      = ([⟨10, "A", 1, .absent⟩, ⟨20, "B", 2, .null⟩, ⟨30, "C", 3, .absent⟩] : Store).map
          Todo.id :=
  (patch_reorder_and_back_restores_orders 1 2
    [⟨10, "A", 1, .absent⟩, ⟨20, "B", 2, .null⟩, ⟨30, "C", 3, .absent⟩]
    ⟨10, "A", 1, .absent⟩ 3 none none none none
    (by decide) (by decide) (by decide) (by decide) (by decide)).1

end TodosRouter
